import Mathlib

/-!
# AR camera calibration and augmented reality: a verification development

A shallow embedding of the OBJ loader, the model transform, the target
detection and ordering, the detect/track loop, the wireframe loops, the
checkerboard test and the calibration loop of `extension.cpp`, `read_obj.cpp`,
`main.cpp` and `pose.cpp`, followed by theorems about them.

Conventions of the embedding.
* A finite `float` or `double` value is the rational (`ℚ`) it denotes.  Every
  `float` operation of the source is the exact operation followed by
  `roundF32`, every `double` operation by `roundF64`: rounding to the nearest
  representable value, ties to even, with gradual underflow.  A result too
  large for the format is the value `FLT_INF` or `DBL_INF` (with its sign),
  which stands for an infinity; it compares with finite values as an infinity
  does.  NaN and the sign of zero are not represented.  The numerals read by
  the OBJ loader come from a reader that is a parameter of the loader.
* `int` values are `Int`; where a value can leave the `int` range (`index - 1`
  in `loadOBJ`, the cast `(int)corners.size()`) it is wrapped to 32 bits, and
  the conversion of an `int` to `size_t` is taken modulo `2^64`.
* `std::vector` is `List`; `push_back` appends at the end.
* Calls into the vision toolkit whose result depends on pixel data
  (contour extraction, optical flow, the calibration fit) are inputs of the
  step functions: the embedding fixes how the program *uses* their results.
-/

namespace ARCalib

/-! ## Geometry -/

/-- The type `cv::Point2f`. -/
structure Point2f where
  x : ℚ
  y : ℚ
deriving DecidableEq, Repr

/-- The type `cv::Point3f` (also used for `cv::Vec3f`). -/
structure Point3f where
  x : ℚ
  y : ℚ
  z : ℚ
deriving DecidableEq, Repr

/-- The type `cv::Vec3i`: one triangle, three vertex indices. -/
structure Vec3i where
  i0 : Int
  i1 : Int
  i2 : Int
deriving DecidableEq, Repr

/-! ## Floating-point arithmetic -/

/-- The constant `FLT_MAX` of `<cfloat>`: `(2 - 2^-23) * 2^127`. -/
def FLT_MAX : ℚ := 340282346638528859811704183484516925440

/-- The value `2^128` that stands for the `float` infinity. -/
def FLT_INF : ℚ := 340282366920938463463374607431768211456

/-- The constant `DBL_MAX`: `(2 - 2^-52) * 2^1023`. -/
def DBL_MAX : ℚ := (2 ^ 53 - 1) * 2 ^ 971

/-- The value `2^1024` that stands for the `double` infinity. -/
def DBL_INF : ℚ := 2 ^ 1024

/-- The number of binary digits of `n`, computed with `fuel` halvings at
most. -/
def bitLengthAux : Nat → Nat → Nat
  | 0, _ => 0
  | fuel + 1, n => if n = 0 then 0 else bitLengthAux fuel (n / 2) + 1

/-- The number of binary digits of `n` (0 for 0). -/
def bitLength (n : Nat) : Nat := bitLengthAux n n

/-- The exponent of a non-zero rational: the integer `e` with
`2^e ≤ |x| < 2^(e+1)`.  The difference of the bit lengths of numerator and
denominator is `e` or `e + 1`. -/
def ilog2 (x : ℚ) : Int :=
  let k : Int := (bitLength x.num.natAbs : Int) - (bitLength x.den : Int)
  if (2 : ℚ) ^ k ≤ |x| then k else k - 1

/-- Rounding of a rational to the nearest integer, ties to the even one. -/
def roundHalfEven (x : ℚ) : Int :=
  let f := ⌊x⌋
  let r := x - f
  if r < 1 / 2 then f
  else if 1 / 2 < r then f + 1
  else if f % 2 = 0 then f else f + 1

/-- Rounding to a binary format with `p` significant bits and least normal
exponent `emin`: nearest multiple of the unit in the last place, ties to even
(the IEEE 754 default), subnormal below `2^emin`, no upper bound. -/
def roundTo (p : Nat) (emin : Int) (x : ℚ) : ℚ :=
  if x = 0 then 0
  else
    let e := max (ilog2 x) emin
    let ulp : ℚ := (2 : ℚ) ^ (e - ((p : Int) - 1))
    (roundHalfEven (x / ulp) : ℚ) * ulp

/-- Rounding to `float` (binary32): a result beyond `FLT_MAX` is `±FLT_INF`. -/
def roundF32 (x : ℚ) : ℚ :=
  let r := roundTo 24 (-126) x
  if FLT_MAX < |r| then (if r < 0 then -FLT_INF else FLT_INF) else r

/-- Rounding to `double` (binary64): a result beyond `DBL_MAX` is `±DBL_INF`. -/
def roundF64 (x : ℚ) : ℚ :=
  let r := roundTo 53 (-1022) x
  if DBL_MAX < |r| then (if r < 0 then -DBL_INF else DBL_INF) else r

/-! ## `orderPoints` (extension.cpp, lines 94-112) -/

/-- The local variables of the loop of `orderPoints`. -/
structure OrderVars where
  minSum : ℚ
  maxSum : ℚ
  minDiff : ℚ
  maxDiff : ℚ
  tlIdx : Nat
  brIdx : Nat
  trIdx : Nat
  blIdx : Nat
deriving DecidableEq, Repr

/-- Element access `pts[i]`.  The source reads `pts[0..3]` unchecked; the
embedding is meant for lists of at least four points. -/
def ptAt (pts : List Point2f) (i : Nat) : Point2f :=
  pts.getD i ⟨0, 0⟩

/-- The values of the locals before the loop. -/
def orderInit : OrderVars :=
  { minSum := FLT_MAX, maxSum := -FLT_MAX, minDiff := FLT_MAX, maxDiff := -FLT_MAX,
    tlIdx := 0, brIdx := 0, trIdx := 0, blIdx := 0 }

/-- One iteration of the loop body of `orderPoints`, for index `i`. -/
def orderBody (pts : List Point2f) (v : OrderVars) (i : Nat) : OrderVars :=
  let sum := roundF32 ((ptAt pts i).x + (ptAt pts i).y)
  let diff := roundF32 ((ptAt pts i).x - (ptAt pts i).y)
  let v := if sum < v.minSum then { v with minSum := sum, tlIdx := i } else v
  let v := if sum > v.maxSum then { v with maxSum := sum, brIdx := i } else v
  let v := if diff < v.minDiff then { v with minDiff := diff, trIdx := i } else v
  let v := if diff > v.maxDiff then { v with maxDiff := diff, blIdx := i } else v
  v

/-- The locals after `for (int i = 0; i < 4; i++)`. -/
def orderLoop (pts : List Point2f) : OrderVars :=
  [0, 1, 2, 3].foldl (orderBody pts) orderInit

/-- The function `orderPoints`: the result is
`[pts[tlIdx], pts[trIdx], pts[brIdx], pts[blIdx]]`. -/
def orderPoints (pts : List Point2f) : List Point2f :=
  let v := orderLoop pts
  [ptAt pts v.tlIdx, ptAt pts v.trIdx, ptAt pts v.brIdx, ptAt pts v.blIdx]

/-! ## The OBJ loader `loadOBJ` (extension.cpp 26-79, read_obj.cpp 25-87)

The two copies of `loadOBJ` differ in comments and blank lines only; one
embedding serves both. -/

/-- The predicate `isspace` of the "C" locale: space, `\t`, `\n`, `\v`, `\f`, `\r`. -/
def isSpace (c : Char) : Bool :=
  c = ' ' || c = '\t' || c = '\n' || c = Char.ofNat 11 || c = Char.ofNat 12 || c = '\r'

/-- The lines `while (getline(file, line))` delivers: the text is cut at every
`\n`; no line is delivered for the end of the text right after a `\n` (or for
an empty text).  `cur` holds the current line, reversed. -/
def getlinesFrom : List Char → List Char → List (List Char)
  | [], cur => if cur = [] then [] else [cur.reverse]
  | c :: cs, cur =>
    if c = '\n' then cur.reverse :: getlinesFrom cs [] else getlinesFrom cs (c :: cur)

/-- All lines of a text, in order. -/
def getlines (text : List Char) : List (List Char) :=
  getlinesFrom text []

/-- The words `while (iss >> token)` delivers: maximal runs of non-space
characters.  `cur` holds the current word, reversed. -/
def tokensFrom : List Char → List Char → List (List Char)
  | [], cur => if cur = [] then [] else [cur.reverse]
  | c :: cs, cur =>
    if isSpace c then
      (if cur = [] then tokensFrom cs [] else cur.reverse :: tokensFrom cs [])
    else tokensFrom cs (c :: cur)

/-- All whitespace-separated words of a character sequence. -/
def tokens (s : List Char) : List (List Char) :=
  tokensFrom s []

/-- Extraction of one `char` (`iss >> vLabel`): leading whitespace is skipped;
the result is the character and what is left of the stream. -/
def readChar (s : List Char) : Option (Char × List Char) :=
  match s.dropWhile isSpace with
  | [] => none
  | c :: rest => some (c, rest)

/-- Extraction of one `float` from a stream (`iss >> x`), a facility of the
standard library: for the characters left in the stream it gives the value
read and the characters left after it, or `none` when the extraction fails.
The loader is embedded for an arbitrary such reader. -/
abbrev FloatReader := List Char → Option (ℚ × List Char)

/-- Value of a decimal digit character. -/
def digitVal (c : Char) : Nat := c.toNat - 48

/-- Value of a run of decimal digits. -/
def digitsVal (ds : List Char) : Nat :=
  ds.foldl (fun n c => 10 * n + digitVal c) 0

/-- A `FloatReader` for decimal numerals `[+-]digits[.digits][(e|E)[+-]digits]`
with at least one mantissa digit: whitespace is skipped, the longest such
numeral is consumed and its exact value returned.  It is the reader used to
evaluate the loader on concrete texts. -/
def readDecimal : FloatReader := fun s =>
  let s0 := s.dropWhile isSpace
  let neg : Bool := s0.head? = some '-'
  let s1 := if s0.head? = some '-' ∨ s0.head? = some '+' then s0.drop 1 else s0
  let ip := s1.takeWhile Char.isDigit
  let s2 := s1.dropWhile Char.isDigit
  let fp := if s2.head? = some '.' then (s2.drop 1).takeWhile Char.isDigit else []
  let s3 := if s2.head? = some '.' then (s2.drop 1).dropWhile Char.isDigit else s2
  if ip = [] ∧ fp = [] then none
  else
    let m : ℚ := (digitsVal ip : ℚ) + (digitsVal fp : ℚ) / (10 : ℚ) ^ fp.length
    let m := if neg then -m else m
    if s3.head? = some 'e' ∨ s3.head? = some 'E' then
      let s4 := s3.drop 1
      let eneg : Bool := s4.head? = some '-'
      let s5 := if s4.head? = some '-' ∨ s4.head? = some '+' then s4.drop 1 else s4
      let ep := s5.takeWhile Char.isDigit
      if ep = [] then none
      else
        let e : ℚ := if eneg then 1 / (10 : ℚ) ^ digitsVal ep else (10 : ℚ) ^ digitsVal ep
        some (m * e, s5.dropWhile Char.isDigit)
    else some (m, s3)

/-- An integer reduced to the range `[-2^31, 2^31)` of a 32-bit two's
complement `int`: the value an overflowing `int` operation leaves. -/
def wrapInt32 (n : Int) : Int :=
  (n + 2147483648) % 4294967296 - 2147483648

/-- The function `std::stoi(indexStr)`: leading whitespace is skipped, an
optional sign and the longest run of decimal digits are read; trailing
characters are ignored.  `none` stands for a thrown exception:
`invalid_argument` when there is no digit, `out_of_range` when the value does
not fit an `int`. -/
def stoi (str : List Char) : Option Int :=
  let s0 := str.dropWhile isSpace
  let neg : Bool := s0.head? = some '-'
  let s1 := if s0.head? = some '-' ∨ s0.head? = some '+' then s0.drop 1 else s0
  let ds := s1.takeWhile Char.isDigit
  if ds = [] then none
  else
    let v : Int := if neg then -(digitsVal ds : Int) else (digitsVal ds : Int)
    if v < -2147483648 ∨ 2147483647 < v then none else some v

/-- The statement `getline(tokenStream, indexStr, '/')` on a token: the
characters before the first `/`.  A token is never empty, so the call always
succeeds. -/
def indexStrOf (token : List Char) : List Char :=
  token.takeWhile (fun c => c ≠ '/')

/-- The body of `while (iss >> token)`: a token whose first sub-token converts
appends `index - 1`; a token for which `stoi` throws appends nothing. -/
def pushIndex (vertexIndices : List Int) (token : List Char) : List Int :=
  match stoi (indexStrOf token) with
  | some index => vertexIndices ++ [wrapInt32 (index - 1)]
  | none => vertexIndices

/-- The list `vertexIndices` of a face line: `iss >> fLabel` consumes the
`f`, then every token is handled by `pushIndex`. -/
def faceIndices (line : List Char) : List Int :=
  match readChar line with
  | none => []
  | some (_, rest) => (tokens rest).foldl pushIndex []

/-- The triangulation step that ends the face branch: three indices give one
face, four give two, any other count gives none (and a message on `cerr`). -/
def emitFaces (outFaces : List Vec3i) (vertexIndices : List Int) : List Vec3i :=
  match vertexIndices with
  | [a, b, c] => outFaces ++ [⟨a, b, c⟩]
  | [a, b, c, d] => outFaces ++ [⟨a, b, c⟩, ⟨a, c, d⟩]
  | _ => outFaces

/-- The condition `iss >> vLabel >> x >> y >> z` of the vertex branch. -/
def readVertex (rd : FloatReader) (line : List Char) : Option Point3f :=
  match readChar line with
  | none => none
  | some (_, r0) =>
    match rd r0 with
    | none => none
    | some (x, r1) =>
      match rd r1 with
      | none => none
      | some (y, r2) =>
        match rd r2 with
        | none => none
        | some (z, _) => some ⟨x, y, z⟩

/-- The two output parameters of `loadOBJ`. -/
structure ObjData where
  vertices : List Point3f
  faces : List Vec3i
deriving DecidableEq, Repr

/-- The body of the line loop of `loadOBJ`. -/
def loadLine (rd : FloatReader) (out : ObjData) (line : List Char) : ObjData :=
  if line = [] then out
  else if line.take 2 = ['v', ' '] then
    match readVertex rd line with
    | none => out
    | some v => { out with vertices := out.vertices ++ [v] }
  else if line.take 2 = ['f', ' '] then
    { out with faces := emitFaces out.faces (faceIndices line) }
  else out

/-- The function `loadOBJ`.  `file` is the content of the file at
`objFilePath`, `none` when it cannot be opened; `out` holds `outVertices` and
`outFaces` on entry.  The result is the returned `bool` and the two output
parameters on exit. -/
def loadOBJ (rd : FloatReader) (file : Option String) (out : ObjData) : Bool × ObjData :=
  match file with
  | none => (false, out)
  | some text => (true, (getlines text.toList).foldl (loadLine rd) ⟨[], []⟩)

/-! ## `adjustModel` (extension.cpp 83-90, read_obj.cpp 90-97) -/

/-- The `float` addition `a + b` of a possibly infinite `a` and a finite
`b`: an infinite `a` stays as it is, otherwise the sum is rounded. -/
def addF32 (a b : ℚ) : ℚ :=
  if |a| = FLT_INF then a else roundF32 (a + b)

/-- The loop body of `adjustModel` on one vertex: three `float`
multiplications and one `float` addition, each rounded. -/
def adjustVertex (scale zOffset : ℚ) (v : Point3f) : Point3f :=
  let x := roundF32 (v.x * scale)
  let y := roundF32 (v.y * scale)
  let z := roundF32 (v.z * scale)
  let z := addF32 z zOffset
  ⟨x, y, z⟩

/-- The function `adjustModel`: every vertex is updated in place, in order. -/
def adjustModel (vertices : List Point3f) (scale zOffset : ℚ) : List Point3f :=
  vertices.map (adjustVertex scale zOffset)

/-! ## `detectTarget` (extension.cpp 117-164) -/

/-- What the contour pipeline yields for one contour: the polygon `approx` of
`approxPolyDP`, `isContourConvex(approx)`, `contourArea(approx)` and the size
of `minAreaRect(approx)`. -/
structure Contour where
  approx : List (Int × Int)
  convex : Bool
  area : ℚ
  width : ℚ
  height : ℚ
deriving DecidableEq, Repr

/-- The constant `expectedRatio = 8.0 / 6.0`, a `double`. -/
def expectedRatio : ℚ := roundF64 (8 / 6)

/-- The body of the contour loop: the running `(bestArea, bestContour)` is
replaced by a candidate that passes every filter and has a larger area.
`width` and `height` are `float` values converted to `double` (exactly); the
quotient, the reciprocal and the difference are `double` operations.
For `width = 0` the source computes `1.0 / 0 = inf` and rejects the candidate;
here `1 / 0 = 0`, which is rejected by the same test. -/
def detectBody (best : ℚ × List (Int × Int)) (c : Contour) : ℚ × List (Int × Int) :=
  if c.approx.length = 4 ∧ c.convex = true then
    if c.area < 1000 then best
    else if c.height = 0 then best
    else
      let ratio := roundF64 (c.width / c.height)
      let ratio := if ratio < 1 then roundF64 (1 / ratio) else ratio
      if |roundF64 (ratio - expectedRatio)| > 1 / 2 then best
      else if c.area > best.1 then (c.area, c.approx) else best
  else best

/-- The loop `corners.push_back(Point2f(pt.x, pt.y))`: each `int` coordinate
is converted to `float`. -/
def contourCorners (approx : List (Int × Int)) : List Point2f :=
  approx.map (fun pt => ⟨roundF32 (pt.1 : ℚ), roundF32 (pt.2 : ℚ)⟩)

/-- The function `detectTarget` on the contours found in the frame.
`targetCorners` is the output parameter on entry; the result is the returned
`bool` and the output parameter on exit. -/
def detectTarget (contours : List Contour) (targetCorners : List Point2f) :
    Bool × List Point2f :=
  let best := contours.foldl detectBody (0, [])
  if best.2 = [] ∨ best.2.length ≠ 4 then (false, targetCorners)
  else (true, orderPoints (contourCorners best.2))

/-! ## The detect/track loop of `main` (extension.cpp 209-251) -/

/-- An image (`cv::Mat`): its size and its pixel data. -/
structure Mat where
  cols : Nat
  rows : Nat
  data : List Nat
deriving DecidableEq, Repr

/-- The default-constructed `Mat()`. -/
def Mat.mk0 : Mat := ⟨0, 0, []⟩

/-- The test `m.empty()`: no pixel. -/
def Mat.empty (m : Mat) : Bool := m.cols = 0 || m.rows = 0

/-- The call `calcOpticalFlowPyrLK(prevFrame, frame, targetCorners, ...)` of
the toolkit: from the two frames and the points it gives `newCorners` and
`status` (one `uchar` per point). -/
abbrev FlowFn := Mat → Mat → List Point2f → List Point2f × List Nat

/-- One captured frame together with the contours the pipeline of
`detectTarget` finds in it. -/
structure FrameObs where
  frame : Mat
  contours : List Contour
deriving DecidableEq, Repr

/-- The state variables of the tracking loop. -/
structure TrackState where
  isTracking : Bool
  targetCorners : List Point2f
  prevFrame : Mat
deriving DecidableEq, Repr

/-- The state before the first iteration. -/
def trackInit : TrackState :=
  { isTracking := false, targetCorners := [], prevFrame := Mat.mk0 }

/-- The loop `for (i < status.size()) if (status[i]) goodCount++`. -/
def goodCount (status : List Nat) : Nat :=
  status.foldl (fun n b => if b ≠ 0 then n + 1 else n) 0

/-- The detect/track part of one iteration of the loop, for a non-empty
frame. -/
def trackStep (flow : FlowFn) (s : TrackState) (obs : FrameObs) : TrackState :=
  if s.isTracking = false then
    match detectTarget obs.contours s.targetCorners with
    | (true, corners) =>
      { isTracking := true, targetCorners := corners, prevFrame := obs.frame }
    | (false, corners) => { s with targetCorners := corners }
  else
    match flow s.prevFrame obs.frame s.targetCorners with
    | (newCorners, status) =>
      if goodCount status < 4 then
        { s with isTracking := false, targetCorners := [] }
      else
        { s with targetCorners := newCorners, prevFrame := obs.frame }

/-- The loop over the captured frames: it ends with the first empty frame. -/
def trackRun (flow : FlowFn) : TrackState → List FrameObs → TrackState
  | s, [] => s
  | s, obs :: rest =>
    if obs.frame.empty then s else trackRun flow (trackStep flow s obs) rest

/-! ## The object-point grid (main.cpp 112-118, pose.cpp 38-43, read_obj.cpp 120-125) -/

/-- The type `cv::Size`. -/
structure Size where
  width : Int
  height : Int
deriving DecidableEq, Repr

/-- The inner loop `for (j < patternSize.width) push_back((j, -i, 0))`.  The
conversion of the `int` values `j` and `-i` to `float` is exact below `2^24`,
which covers the pattern sizes of the programs; it is taken as exact. -/
def gridRow (patternSize : Size) (acc : List Point3f) (i : Nat) : List Point3f :=
  (List.range patternSize.width.toNat).foldl
    (fun acc j => acc ++ [⟨((j : Int) : ℚ), ((-(i : Int) : Int) : ℚ), 0⟩]) acc

/-- The nested loop that fills the list of board points, starting from the
empty list. -/
def objectPointGrid (patternSize : Size) : List Point3f :=
  (List.range patternSize.height.toNat).foldl (gridRow patternSize) []

/-- The constant `patternSize(9, 6)` of the three programs. -/
def patternSize : Size := ⟨9, 6⟩

/-- The list `point_set` built by main.cpp at each save. -/
def point_set : List Point3f := objectPointGrid patternSize

/-- The list `boardObjectPoints` of pose.cpp. -/
def boardObjectPoints_pose : List Point3f := objectPointGrid patternSize

/-- The list `boardObjectPoints` of read_obj.cpp. -/
def boardObjectPoints_read_obj : List Point3f := objectPointGrid patternSize

/-! ## The calibration loop of `main` (main.cpp 37-175) -/

/-- A matrix of `double` (`cv::Mat` of type `CV_64F`), by rows. -/
abbrev DMat := List (List ℚ)

/-- What `calibrateCamera` gives back: its return value and the output
arguments. -/
structure FitResult where
  rms : ℚ
  cameraMatrix : DMat
  distCoeffs : DMat
  rvecs : List DMat
  tvecs : List DMat
deriving DecidableEq, Repr

/-- The call `calibrateCamera(point_list, corner_list, imageSize, cameraMatrix,
distCoeffs, rvecs, tvecs, flags)` of the toolkit, as a function of its
inputs. -/
abbrev FitFn :=
  List (List Point3f) → List (List Point2f) → Size → DMat → DMat → Int → FitResult

/-- The flag `CALIB_FIX_ASPECT_RATIO`. -/
def CALIB_FIX_ASPECT_RATIO : Int := 2

/-- The effects of one iteration outside the program variables. -/
inductive Effect where
  | fitCall (samples : Nat)
  | fileWrite (cameraMatrix distCoeffs : DMat) (reprojectionError : ℚ)
  | message (text : String)
deriving DecidableEq, Repr

/-- The variables of `main` that live across iterations. -/
structure CalibState where
  frameCount : Nat
  corner_list : List (List Point2f)
  point_list : List (List Point3f)
  image_list : List Mat
  lastValidCorners : List Point2f
  lastValidImage : Mat
  calibrated : Bool
  cameraMatrix : DMat
  distCoeffs : DMat
  reprojectionError : ℚ
  rvecs : List DMat
  tvecs : List DMat
deriving DecidableEq, Repr

/-- The values of the variables before the loop. -/
def calibInit : CalibState :=
  { frameCount := 0, corner_list := [], point_list := [], image_list := [],
    lastValidCorners := [], lastValidImage := Mat.mk0, calibrated := false,
    cameraMatrix := [], distCoeffs := [], reprojectionError := 0,
    rvecs := [], tvecs := [] }

/-- What one iteration receives from outside: the captured frame, the result
of `findChessboardCorners` and `cornerSubPix` on its downscaled copy, the frame
after `drawChessboardCorners`, the key, and whether the intrinsics file can be
opened for writing. -/
structure CalibObs where
  fullFrame : Mat
  patternFound : Bool
  cornerSet : List Point2f
  drawn : Mat
  key : Char
  fileOpens : Bool
deriving DecidableEq, Repr

/-- The constant `scaleFactor`. -/
def scaleFactor : ℚ := 1 / 2

/-- The statement `pt.x /= scaleFactor` on a `float` coordinate: the division
is made in `double` and its result converted back to `float`. -/
def scaleBack (c : ℚ) : ℚ := roundF32 (roundF64 (c / scaleFactor))

/-- The block `if (patternFound)`: corners are scaled back to full resolution
and kept, with the annotated frame, as the last valid detection. -/
def updateLastValid (s : CalibState) (obs : CalibObs) : CalibState :=
  if obs.patternFound = true then
    { s with
      lastValidCorners := obs.cornerSet.map (fun pt => ⟨scaleBack pt.x, scaleBack pt.y⟩),
      lastValidImage := obs.drawn }
  else s

/-- The branch of key `s`. -/
def keySave (s : CalibState) : CalibState × List Effect :=
  if s.lastValidCorners ≠ [] then
    ({ s with
       corner_list := s.corner_list ++ [s.lastValidCorners],
       point_list := s.point_list ++ [point_set],
       image_list := s.image_list ++ [s.lastValidImage] },
     [Effect.message "Calibration frame saved."])
  else (s, [Effect.message "No valid detection available to save."])

/-- The camera matrix handed to the fit: the identity with the principal point
at the image centre. -/
def initialCameraMatrix (imageSize : Size) : DMat :=
  [[1, 0, (imageSize.width : ℚ) / 2], [0, 1, (imageSize.height : ℚ) / 2], [0, 0, 1]]

/-- The branch of key `c`. -/
def keyCalibrate (fit : FitFn) (s : CalibState) : CalibState × List Effect :=
  if s.corner_list.length ≥ 5 then
    let img := s.image_list.getD 0 Mat.mk0
    let imageSize : Size := ⟨img.cols, img.rows⟩
    let cameraMatrix := initialCameraMatrix imageSize
    let distCoeffs : DMat := [[0], [0], [0], [0], [0]]
    let flags := CALIB_FIX_ASPECT_RATIO
    let r := fit s.point_list s.corner_list imageSize cameraMatrix distCoeffs flags
    ({ s with
       cameraMatrix := r.cameraMatrix, distCoeffs := r.distCoeffs,
       rvecs := r.rvecs, tvecs := r.tvecs,
       reprojectionError := r.rms, calibrated := true },
     [Effect.fitCall s.corner_list.length, Effect.message "Calibration complete."])
  else (s, [Effect.message "Need at least 5 calibration images."])

/-- The branch of key `w`. -/
def keyWrite (s : CalibState) (fileOpens : Bool) : CalibState × List Effect :=
  if s.calibrated = true then
    if fileOpens = false then (s, [Effect.message "Error: Could not open file for writing."])
    else
      (s, [Effect.fileWrite s.cameraMatrix s.distCoeffs s.reprojectionError,
           Effect.message "Calibration parameters saved to ../calibration/intrinsics.yaml"])
  else (s, [Effect.message "Camera not calibrated yet. Press 'c' to calibrate."])

/-- The key dispatch at the end of an iteration that is not left with ESC. -/
def keyStep (fit : FitFn) (s : CalibState) (key : Char) (fileOpens : Bool) :
    CalibState × List Effect :=
  if key = 's' ∨ key = 'S' then keySave s
  else if key = 'c' ∨ key = 'C' then keyCalibrate fit s
  else if key = 'w' ∨ key = 'W' then keyWrite s fileOpens
  else (s, [])

/-- One iteration of the loop for a non-empty frame and a key other than
ESC: detection update, key dispatch, `frameCount++`. -/
def calibStep (fit : FitFn) (s : CalibState) (obs : CalibObs) : CalibState × List Effect :=
  let s1 := updateLastValid s obs
  let r := keyStep fit s1 obs.key obs.fileOpens
  ({ r.1 with frameCount := r.1.frameCount + 1 }, r.2)

/-- The loop: it ends with the first empty frame or ESC key; the effects of
the iterations are collected in order. -/
def calibRun (fit : FitFn) : CalibState → List CalibObs → CalibState × List Effect
  | s, [] => (s, [])
  | s, obs :: rest =>
    if obs.fullFrame.empty then (s, [])
    else if obs.key = Char.ofNat 27 then (updateLastValid s obs, [])
    else
      let r := calibStep fit s obs
      let r2 := calibRun fit r.1 rest
      (r2.1, r.2 ++ r2.2)

/-! ## The wireframe loops of `main` (read_obj.cpp 188-210, extension.cpp 272-283) -/

/-- The conversion from `Point2f` to the integer `Point` that `cv::line` takes
(rounding of both coordinates), a facility of the toolkit. -/
abbrev PointCast := Point2f → Int × Int

/-- One call `line(frame, pt1, pt2, ...)`: the two end points. -/
abbrev Segment := (Int × Int) × (Int × Int)

/-- The conversion of an `int` to `size_t` (64 bits) that takes place when an
`int` is compared with `size()` or used as a vector index. -/
def toSizeT (i : Int) : Nat := (i % 18446744073709551616).toNat

/-- The test `i < 0 || i >= projectedPoints.size()`. -/
def indexInvalid (i : Int) (size : Nat) : Bool :=
  decide (i < 0) || decide (size ≤ toSizeT i)

/-- The access `projectedPoints[i]` with an `int` index; `none` stands for an
access outside the vector. -/
def pointAt (projectedPoints : List Point2f) (i : Int) : Option Point2f :=
  projectedPoints[toSizeT i]?

/-- The body of the face loop of read_obj.cpp: an invalid face is skipped,
otherwise the three points are converted and three segments drawn.  `drawn`
lists the segments drawn so far. -/
def drawFace_read_obj (cast : PointCast) (projectedPoints : List Point2f)
    (drawn : List Segment) (face : Vec3i) : Option (List Segment) :=
  let i1 := face.i0
  let i2 := face.i1
  let i3 := face.i2
  if indexInvalid i1 projectedPoints.length || indexInvalid i2 projectedPoints.length ||
      indexInvalid i3 projectedPoints.length then some drawn
  else
    match pointAt projectedPoints i1, pointAt projectedPoints i2, pointAt projectedPoints i3 with
    | some p1, some p2, some p3 =>
      let pt1 := cast p1
      let pt2 := cast p2
      let pt3 := cast p3
      some (drawn ++ [(pt1, pt2), (pt2, pt3), (pt3, pt1)])
    | _, _, _ => none

/-- The body of the face loop of extension.cpp: an invalid face is skipped,
otherwise each of the three `line` calls reads its two points. -/
def drawFace_extension (cast : PointCast) (projectedPoints : List Point2f)
    (drawn : List Segment) (face : Vec3i) : Option (List Segment) :=
  let i1 := face.i0
  let i2 := face.i1
  let i3 := face.i2
  if indexInvalid i1 projectedPoints.length || indexInvalid i2 projectedPoints.length ||
      indexInvalid i3 projectedPoints.length then some drawn
  else
    match pointAt projectedPoints i1, pointAt projectedPoints i2 with
    | some a, some b =>
      match pointAt projectedPoints i2, pointAt projectedPoints i3 with
      | some c, some d =>
        match pointAt projectedPoints i3, pointAt projectedPoints i1 with
        | some e, some f =>
          some (drawn ++ [(cast a, cast b)] ++ [(cast c, cast d)] ++ [(cast e, cast f)])
        | _, _ => none
      | _, _ => none
    | _, _ => none

/-- The face loop of read_obj.cpp: the segments drawn, `none` if some access
leaves the vector. -/
def renderFaces_read_obj (cast : PointCast) (projectedPoints : List Point2f)
    (objFaces : List Vec3i) : Option (List Segment) :=
  objFaces.foldlM (drawFace_read_obj cast projectedPoints) []

/-- The face loop of extension.cpp: the segments drawn, `none` if some access
leaves the vector. -/
def renderFaces_extension (cast : PointCast) (projectedPoints : List Point2f)
    (objFaces : List Vec3i) : Option (List Segment) :=
  objFaces.foldlM (drawFace_extension cast projectedPoints) []

/-! ## The checkerboard test of the pose programs (pose.cpp 85-98, read_obj.cpp 158-171) -/

/-- The method `Size::area()`. -/
def Size.area (s : Size) : Int := s.width * s.height

/-- What `findChessboardCorners` reports for a frame: the flag `found` and the
list `corners`. -/
structure ChessboardOut where
  found : Bool
  corners : List Point2f
deriving DecidableEq, Repr

/-- The call `cornerSubPix(gray, corners, ...)` of the toolkit: it moves each
corner of the list in place. -/
abbrev SubPixFn := Point2f → Point2f

/-- The arguments of one call `solvePnP(objectPoints, imagePoints, ...)`. -/
structure SolvePnPCall where
  objectPoints : List Point3f
  imagePoints : List Point2f
deriving DecidableEq, Repr

/-- The pose attempt of one iteration of read_obj.cpp:
`if (found && (int)corners.size() == patternSize.area())`. -/
def poseAttempt_read_obj (subPix : SubPixFn) (d : ChessboardOut) : Option SolvePnPCall :=
  if d.found = true ∧ wrapInt32 (d.corners.length : Int) = patternSize.area then
    some ⟨boardObjectPoints_read_obj, d.corners.map subPix⟩
  else none

/-! ## Auxiliary notions for the theorems -/

/-- The `float` value `sum = pts[i].x + pts[i].y` of the loop. -/
def psum (p : Point2f) : ℚ := roundF32 (p.x + p.y)

/-- The `float` value `diff = pts[i].x - pts[i].y` of the loop. -/
def pdiff (p : Point2f) : ℚ := roundF32 (p.x - p.y)

/-- A point whose computed sum and difference do not overflow: both are
within `[-FLT_MAX, FLT_MAX]`. -/
def InFloatRange (p : Point2f) : Prop :=
  -FLT_MAX ≤ psum p ∧ psum p ≤ FLT_MAX ∧ -FLT_MAX ≤ pdiff p ∧ pdiff p ≤ FLT_MAX

instance (p : Point2f) : Decidable (InFloatRange p) := by
  unfold InFloatRange; infer_instance

/-- Loop invariant of `orderPoints` before iteration `n`: each running
extreme bounds the points seen so far and is reached (or passed) by the point
at the recorded index. -/
structure OrderInv (pts : List Point2f) (v : OrderVars) (n : Nat) : Prop where
  tl_lt : v.tlIdx < 4
  br_lt : v.brIdx < 4
  tr_lt : v.trIdx < 4
  bl_lt : v.blIdx < 4
  tl_le : psum (ptAt pts v.tlIdx) ≤ v.minSum
  br_ge : v.maxSum ≤ psum (ptAt pts v.brIdx)
  tr_le : pdiff (ptAt pts v.trIdx) ≤ v.minDiff
  bl_ge : v.maxDiff ≤ pdiff (ptAt pts v.blIdx)
  minSum_le : ∀ j, j < n → v.minSum ≤ psum (ptAt pts j)
  maxSum_ge : ∀ j, j < n → psum (ptAt pts j) ≤ v.maxSum
  minDiff_le : ∀ j, j < n → v.minDiff ≤ pdiff (ptAt pts j)
  maxDiff_ge : ∀ j, j < n → pdiff (ptAt pts j) ≤ v.maxDiff

/-- Each of the four extremes the loop of `orderPoints` looks for (least and
greatest computed sum, least and greatest computed difference, as rounded to
`float`) is reached by one point only. -/
def UniqueExtremes (pts : List Point2f) : Prop :=
  (∀ p ∈ pts, ∀ q ∈ pts, (∀ r ∈ pts, psum p ≤ psum r) → (∀ r ∈ pts, psum q ≤ psum r) → p = q) ∧
  (∀ p ∈ pts, ∀ q ∈ pts, (∀ r ∈ pts, psum r ≤ psum p) → (∀ r ∈ pts, psum r ≤ psum q) → p = q) ∧
  (∀ p ∈ pts, ∀ q ∈ pts, (∀ r ∈ pts, pdiff p ≤ pdiff r) → (∀ r ∈ pts, pdiff q ≤ pdiff r) → p = q) ∧
  (∀ p ∈ pts, ∀ q ∈ pts, (∀ r ∈ pts, pdiff r ≤ pdiff p) → (∀ r ∈ pts, pdiff r ≤ pdiff q) → p = q)

instance (pts : List Point2f) : Decidable (UniqueExtremes pts) := by
  unfold UniqueExtremes; infer_instance

/-- For the rectangle with corners `(x0,y0)`, `(x1,y0)`, `(x1,y1)`, `(x0,y1)`:
rounding leaves the four extremes strict.  The computed sum of `(x0,y0)` is
below and that of `(x1,y1)` above the computed sums of the other corners, the
computed difference of `(x0,y1)` is below and that of `(x1,y0)` above the
computed differences of the other corners. -/
def RectStrict (x0 x1 y0 y1 : ℚ) : Prop :=
  (psum ⟨x0, y0⟩ < psum ⟨x1, y0⟩ ∧ psum ⟨x0, y0⟩ < psum ⟨x0, y1⟩ ∧
    psum ⟨x0, y0⟩ < psum ⟨x1, y1⟩ ∧ psum ⟨x1, y0⟩ < psum ⟨x1, y1⟩ ∧
    psum ⟨x0, y1⟩ < psum ⟨x1, y1⟩) ∧
  (pdiff ⟨x0, y1⟩ < pdiff ⟨x0, y0⟩ ∧ pdiff ⟨x0, y1⟩ < pdiff ⟨x1, y1⟩ ∧
    pdiff ⟨x0, y1⟩ < pdiff ⟨x1, y0⟩ ∧ pdiff ⟨x0, y0⟩ < pdiff ⟨x1, y0⟩ ∧
    pdiff ⟨x1, y1⟩ < pdiff ⟨x1, y0⟩)

instance (x0 x1 y0 y1 : ℚ) : Decidable (RectStrict x0 x1 y0 y1) := by
  unfold RectStrict; infer_instance

/-- Every index of every face lies in `[0, n)`, `n` the number of vertices. -/
def FacesInRange (d : ObjData) : Prop :=
  ∀ f ∈ d.faces,
    (0 ≤ f.i0 ∧ f.i0 < (d.vertices.length : Int)) ∧
    (0 ≤ f.i1 ∧ f.i1 < (d.vertices.length : Int)) ∧
    (0 ≤ f.i2 ∧ f.i2 < (d.vertices.length : Int))

/-- The faces one line contributes. -/
def lineFaces (line : List Char) : List Vec3i :=
  if line.take 2 = ['f', ' '] then emitFaces [] (faceIndices line) else []

/-- A flow that returns as many points as it is given. -/
def FlowSized (flow : FlowFn) : Prop :=
  ∀ prev cur pts, (flow prev cur pts).1.length = pts.length

/-- A flow that reports every point as lost. -/
def flowLost : FlowFn := fun _ _ pts => (pts, pts.map (fun _ => 0))

/-- A flow that reports every point as found, unmoved. -/
def flowKeep : FlowFn := fun _ _ pts => (pts, pts.map (fun _ => 1))

/-- A contour that passes every filter of `detectTarget`: the 80 by 60
rectangle with corners `(20,40)`, `(100,40)`, `(100,100)`, `(20,100)`. -/
def rectContour : Contour :=
  { approx := [(20, 40), (100, 40), (100, 100), (20, 100)], convex := true,
    area := 4800, width := 80, height := 60 }

/-- A black 640 by 480 frame. -/
def blankFrame : Mat := ⟨640, 480, List.replicate (640 * 480) 0⟩

/-- What the state invariant of the tracking loop says. -/
def TrackInv (s : TrackState) : Prop :=
  s.isTracking = true → s.targetCorners.length = 4 ∧ s.prevFrame.empty = false

/-- One frame showing the rectangle `rectContour`. -/
def obsRect : FrameObs := ⟨blankFrame, [rectContour]⟩

/-- A fit that hands back the initial guess with error zero. -/
def fitEcho : FitFn := fun _ _ _ cameraMatrix distCoeffs _ =>
  { rms := 0, cameraMatrix := cameraMatrix, distCoeffs := distCoeffs, rvecs := [], tvecs := [] }

/-- An iteration with a black frame, no pattern found and the given key. -/
def obsKey (key : Char) : CalibObs :=
  { fullFrame := blankFrame, patternFound := false, cornerSet := [], drawn := blankFrame,
    key := key, fileOpens := true }

/-- The decimal numeral of a natural number, most significant digit first
(the empty string for 0). -/
def decimal (n : Nat) : List Char :=
  (Nat.digits 10 n).reverse.map (fun d => Char.ofNat (48 + d))

/-- The 0-based index a face token contributes: `stoi` of its first
sub-token, minus one; `none` when `stoi` throws. -/
def parseIndex (token : List Char) : Option Int :=
  (stoi (indexStrOf token)).map (fun index => wrapInt32 (index - 1))

/-- The ten decimal digit characters. -/
def digitChars : List Char := ['0', '1', '2', '3', '4', '5', '6', '7', '8', '9']

/-- A face index that fits the element type `int` of `Vec3i`. -/
def IsInt32 (i : Int) : Prop := -2147483648 ≤ i ∧ i ≤ 2147483647

/-- The segments the specification asks for one face: the three sides when
all three indices are in `[0, n)`, nothing otherwise. -/
def faceSegments (cast : PointCast) (projectedPoints : List Point2f) (face : Vec3i) :
    List Segment :=
  if (0 ≤ face.i0 ∧ face.i0 < (projectedPoints.length : Int)) ∧
      (0 ≤ face.i1 ∧ face.i1 < (projectedPoints.length : Int)) ∧
      (0 ≤ face.i2 ∧ face.i2 < (projectedPoints.length : Int)) then
    [(cast (projectedPoints.getD face.i0.toNat ⟨0, 0⟩),
        cast (projectedPoints.getD face.i1.toNat ⟨0, 0⟩)),
      (cast (projectedPoints.getD face.i1.toNat ⟨0, 0⟩),
        cast (projectedPoints.getD face.i2.toNat ⟨0, 0⟩)),
      (cast (projectedPoints.getD face.i2.toNat ⟨0, 0⟩),
        cast (projectedPoints.getD face.i0.toNat ⟨0, 0⟩))]
  else []

/-- A point conversion that truncates both coordinates. -/
def floorCast : PointCast := fun p => (⌊p.x⌋, ⌊p.y⌋)

/-- The ratio test of `detectTarget` in the words of the specification: the
ratio, replaced by its reciprocal when below 1. -/
def normRatio (r : ℚ) : ℚ := if r < 1 then 1 / r else r

/-- A contour candidate that passes every filter, in the words of the
specification: four vertices, convex, area at least 1000, non-zero height and
normalised ratio within 0.5 of 8/6. -/
def Survives (c : Contour) : Prop :=
  c.approx.length = 4 ∧ c.convex = true ∧ 1000 ≤ c.area ∧ c.height ≠ 0 ∧
    |normRatio (c.width / c.height) - 8 / 6| ≤ 1 / 2

instance (c : Contour) : Decidable (Survives c) := by
  unfold Survives; infer_instance

/-- The ratio the contour loop tests: the `double` quotient of width and
height, replaced by its `double` reciprocal when below 1. -/
def codeRatio (c : Contour) : ℚ :=
  if roundF64 (c.width / c.height) < 1 then roundF64 (1 / roundF64 (c.width / c.height))
  else roundF64 (c.width / c.height)

/-- A contour candidate that passes every filter of the contour loop: four
vertices, convex, area at least 1000, non-zero height and the `double`
difference of `codeRatio` and `expectedRatio` at most 0.5 in absolute value. -/
def Passes (c : Contour) : Prop :=
  c.approx.length = 4 ∧ c.convex = true ∧ 1000 ≤ c.area ∧ c.height ≠ 0 ∧
    |roundF64 (codeRatio c - expectedRatio)| ≤ 1 / 2

instance (c : Contour) : Decidable (Passes c) := by
  unfold Passes; infer_instance

/-- A 60 by 110 candidate: taller than wide, with ratio `110/60` exactly 0.5
above `8/6`. -/
def portrait60x110 : Contour :=
  { approx := [(0, 0), (60, 0), (60, 110), (0, 110)], convex := true,
    area := 6600, width := 60, height := 110 }

/-- The same candidate with width and height swapped. -/
def landscape110x60 : Contour :=
  { portrait60x110 with width := portrait60x110.height, height := portrait60x110.width }

/-- The invariant of the sample store: the three lists have one length and
every stored object-point set is the grid of the pattern `(9, 6)`. -/
def StoreInv (s : CalibState) : Prop :=
  s.corner_list.length = s.point_list.length ∧
  s.point_list.length = s.image_list.length ∧
  ∀ e ∈ s.point_list, e = objectPointGrid ⟨9, 6⟩

/-- An iteration in which a pattern of two corners is found and the given key
pressed. -/
def obsFound (key : Char) : CalibObs :=
  { fullFrame := blankFrame, patternFound := true, cornerSet := [⟨1, 1⟩, ⟨2, 1⟩],
    drawn := blankFrame, key := key, fileOpens := true }

/-! ## Lemmas on the loop of `orderPoints` -/

theorem orderBody_minSum (pts : List Point2f) (v : OrderVars) (i : Nat) :
    (orderBody pts v i).minSum
      = if psum (ptAt pts i) < v.minSum then psum (ptAt pts i) else v.minSum := by
  unfold orderBody psum
  dsimp only
  split_ifs <;> rfl

theorem orderBody_tlIdx (pts : List Point2f) (v : OrderVars) (i : Nat) :
    (orderBody pts v i).tlIdx = if psum (ptAt pts i) < v.minSum then i else v.tlIdx := by
  unfold orderBody psum
  dsimp only
  split_ifs <;> rfl

theorem orderBody_maxSum (pts : List Point2f) (v : OrderVars) (i : Nat) :
    (orderBody pts v i).maxSum
      = if psum (ptAt pts i) > v.maxSum then psum (ptAt pts i) else v.maxSum := by
  unfold orderBody psum
  dsimp only
  split_ifs <;> rfl

theorem orderBody_brIdx (pts : List Point2f) (v : OrderVars) (i : Nat) :
    (orderBody pts v i).brIdx = if psum (ptAt pts i) > v.maxSum then i else v.brIdx := by
  unfold orderBody psum
  dsimp only
  split_ifs <;> rfl

theorem orderBody_minDiff (pts : List Point2f) (v : OrderVars) (i : Nat) :
    (orderBody pts v i).minDiff
      = if pdiff (ptAt pts i) < v.minDiff then pdiff (ptAt pts i) else v.minDiff := by
  unfold orderBody pdiff
  dsimp only
  split_ifs <;> rfl

theorem orderBody_trIdx (pts : List Point2f) (v : OrderVars) (i : Nat) :
    (orderBody pts v i).trIdx = if pdiff (ptAt pts i) < v.minDiff then i else v.trIdx := by
  unfold orderBody pdiff
  dsimp only
  split_ifs <;> rfl

theorem orderBody_maxDiff (pts : List Point2f) (v : OrderVars) (i : Nat) :
    (orderBody pts v i).maxDiff
      = if pdiff (ptAt pts i) > v.maxDiff then pdiff (ptAt pts i) else v.maxDiff := by
  unfold orderBody pdiff
  dsimp only
  split_ifs <;> rfl

theorem orderBody_blIdx (pts : List Point2f) (v : OrderVars) (i : Nat) :
    (orderBody pts v i).blIdx = if pdiff (ptAt pts i) > v.maxDiff then i else v.blIdx := by
  unfold orderBody pdiff
  dsimp only
  split_ifs <;> rfl

theorem orderInv_init (pts : List Point2f) (h0 : InFloatRange (ptAt pts 0)) :
    OrderInv pts orderInit 0 := by
  obtain ⟨h1, h2, h3, h4⟩ := h0
  constructor <;> simp [orderInit] <;> assumption

theorem orderInv_step (pts : List Point2f) (v : OrderVars) (n : Nat) (hn : n < 4)
    (h : OrderInv pts v n) : OrderInv pts (orderBody pts v n) (n + 1) := by
  obtain ⟨h1, h2, h3, h4, h5, h6, h7, h8, h9, h10, h11, h12⟩ := h
  constructor
  · rw [orderBody_tlIdx]; split_ifs <;> assumption
  · rw [orderBody_brIdx]; split_ifs <;> assumption
  · rw [orderBody_trIdx]; split_ifs <;> assumption
  · rw [orderBody_blIdx]; split_ifs <;> assumption
  · rw [orderBody_tlIdx, orderBody_minSum]; split_ifs <;> first | exact le_refl _ | assumption
  · rw [orderBody_brIdx, orderBody_maxSum]; split_ifs <;> first | exact le_refl _ | assumption
  · rw [orderBody_trIdx, orderBody_minDiff]; split_ifs <;> first | exact le_refl _ | assumption
  · rw [orderBody_blIdx, orderBody_maxDiff]; split_ifs <;> first | exact le_refl _ | assumption
  · intro j hj
    rw [orderBody_minSum]
    rcases Nat.lt_succ_iff_lt_or_eq.mp hj with hlt | rfl
    · have := h9 j hlt
      split_ifs <;> linarith
    · split_ifs <;> linarith
  · intro j hj
    rw [orderBody_maxSum]
    rcases Nat.lt_succ_iff_lt_or_eq.mp hj with hlt | rfl
    · have := h10 j hlt
      split_ifs <;> linarith
    · split_ifs <;> linarith
  · intro j hj
    rw [orderBody_minDiff]
    rcases Nat.lt_succ_iff_lt_or_eq.mp hj with hlt | rfl
    · have := h11 j hlt
      split_ifs <;> linarith
    · split_ifs <;> linarith
  · intro j hj
    rw [orderBody_maxDiff]
    rcases Nat.lt_succ_iff_lt_or_eq.mp hj with hlt | rfl
    · have := h12 j hlt
      split_ifs <;> linarith
    · split_ifs <;> linarith

/-- The invariant holds when the loop of `orderPoints` ends. -/
theorem orderInv_loop (pts : List Point2f) (h0 : InFloatRange (ptAt pts 0)) :
    OrderInv pts (orderLoop pts) 4 := by
  have s0 := orderInv_init pts h0
  have s1 := orderInv_step pts _ 0 (by decide) s0
  have s2 := orderInv_step pts _ 1 (by decide) s1
  have s3 := orderInv_step pts _ 2 (by decide) s2
  have s4 := orderInv_step pts _ 3 (by decide) s3
  exact s4

theorem ptAt_mem (pts : List Point2f) (i : Nat) (hi : i < pts.length) : ptAt pts i ∈ pts := by
  unfold ptAt
  rw [List.getD_eq_getElem pts _ hi]
  exact List.getElem_mem hi

theorem mem_exists_ptAt (pts : List Point2f) (q : Point2f) (hq : q ∈ pts) :
    ∃ j, j < pts.length ∧ ptAt pts j = q := by
  obtain ⟨j, hj, rfl⟩ := List.getElem_of_mem hq
  exact ⟨j, hj, by unfold ptAt; rw [List.getD_eq_getElem pts _ hj]⟩

/-- What `orderPoints` returns on four points: four of the given points, the
first of least `x + y`, the second of least `x - y`, the third of greatest
`x + y`, the fourth of greatest `x - y`. -/
theorem orderPoints_extremes (pts : List Point2f) (hlen : pts.length = 4)
    (h0 : InFloatRange (ptAt pts 0)) :
    ∃ tl tr br bl, orderPoints pts = [tl, tr, br, bl] ∧
      tl ∈ pts ∧ tr ∈ pts ∧ br ∈ pts ∧ bl ∈ pts ∧
      (∀ q ∈ pts, psum tl ≤ psum q) ∧ (∀ q ∈ pts, pdiff tr ≤ pdiff q) ∧
      (∀ q ∈ pts, psum q ≤ psum br) ∧ (∀ q ∈ pts, pdiff q ≤ pdiff bl) := by
  have inv := orderInv_loop pts h0
  refine ⟨_, _, _, _, rfl, ?_, ?_, ?_, ?_, ?_, ?_, ?_, ?_⟩
  · exact ptAt_mem pts _ (hlen ▸ inv.tl_lt)
  · exact ptAt_mem pts _ (hlen ▸ inv.tr_lt)
  · exact ptAt_mem pts _ (hlen ▸ inv.br_lt)
  · exact ptAt_mem pts _ (hlen ▸ inv.bl_lt)
  · intro q hq
    obtain ⟨j, hj, rfl⟩ := mem_exists_ptAt pts q hq
    exact le_trans inv.tl_le (inv.minSum_le j (hlen ▸ hj))
  · intro q hq
    obtain ⟨j, hj, rfl⟩ := mem_exists_ptAt pts q hq
    exact le_trans inv.tr_le (inv.minDiff_le j (hlen ▸ hj))
  · intro q hq
    obtain ⟨j, hj, rfl⟩ := mem_exists_ptAt pts q hq
    exact le_trans (inv.maxSum_ge j (hlen ▸ hj)) inv.br_ge
  · intro q hq
    obtain ⟨j, hj, rfl⟩ := mem_exists_ptAt pts q hq
    exact le_trans (inv.maxDiff_ge j (hlen ▸ hj)) inv.bl_ge

/-- On the corners of an axis-aligned rectangle whose extremes stay strict
under rounding, in any order, `orderPoints` returns
`[(x0,y0), (x0,y1), (x1,y1), (x1,y0)]`: the corner of least `x - y`, which is
the bottom-left one when `y` grows downward, comes second. -/
theorem orderPoints_rect (x0 x1 y0 y1 : ℚ) (hs : RectStrict x0 x1 y0 y1)
    (pts : List Point2f)
    (hperm : pts.Perm [⟨x0, y0⟩, ⟨x1, y0⟩, ⟨x1, y1⟩, ⟨x0, y1⟩])
    (hr : ∀ p ∈ pts, InFloatRange p) :
    orderPoints pts = [⟨x0, y0⟩, ⟨x0, y1⟩, ⟨x1, y1⟩, ⟨x1, y0⟩] := by
  obtain ⟨⟨s1, s2, s3, s4, s5⟩, d1, d2, d3, d4, d5⟩ := hs
  have hlen : pts.length = 4 := by simpa using hperm.length_eq
  have hmem : ∀ q, q ∈ pts ↔ q ∈ [(⟨x0, y0⟩ : Point2f), ⟨x1, y0⟩, ⟨x1, y1⟩, ⟨x0, y1⟩] :=
    fun q => hperm.mem_iff
  have h0 : InFloatRange (ptAt pts 0) := hr _ (ptAt_mem pts 0 (by omega))
  obtain ⟨tl, tr, br, bl, heq, htl, htr, hbr, hbl, m1, m2, m3, m4⟩ :=
    orderPoints_extremes pts hlen h0
  have a1 := m1 ⟨x0, y0⟩ ((hmem _).2 (by simp))
  have a2 := m2 ⟨x0, y1⟩ ((hmem _).2 (by simp))
  have a3 := m3 ⟨x1, y1⟩ ((hmem _).2 (by simp))
  have a4 := m4 ⟨x1, y0⟩ ((hmem _).2 (by simp))
  rw [hmem] at htl htr hbr hbl
  simp only [List.mem_cons, List.mem_singleton, List.not_mem_nil, or_false] at htl htr hbr hbl
  have e1 : tl = ⟨x0, y0⟩ := by
    rcases htl with h | h | h | h <;> subst h <;> first | rfl | (exfalso; linarith)
  have e2 : tr = ⟨x0, y1⟩ := by
    rcases htr with h | h | h | h <;> subst h <;> first | rfl | (exfalso; linarith)
  have e3 : br = ⟨x1, y1⟩ := by
    rcases hbr with h | h | h | h <;> subst h <;> first | rfl | (exfalso; linarith)
  have e4 : bl = ⟨x1, y0⟩ := by
    rcases hbl with h | h | h | h <;> subst h <;> first | rfl | (exfalso; linarith)
  rw [heq, e1, e2, e3, e4]

/-! ## Theorems on `orderPoints` -/

/-- C1 (evaluation at the failing input): on the input
`[(10,10),(0,0),(10,0),(0,10)]` the code returns `[(0,0),(0,10),(10,10),(10,0)]`,
top-left, bottom-left, bottom-right, top-right, and not the list
`[(0,0),(10,0),(10,10),(0,10)]` of the specification. -/
theorem orderPoints_S2_returns_TL_BL_BR_TR :
    orderPoints [⟨10, 10⟩, ⟨0, 0⟩, ⟨10, 0⟩, ⟨0, 10⟩]
        = [⟨0, 0⟩, ⟨0, 10⟩, ⟨10, 10⟩, ⟨10, 0⟩] ∧
      orderPoints [⟨10, 10⟩, ⟨0, 0⟩, ⟨10, 0⟩, ⟨0, 10⟩]
        ≠ [⟨0, 0⟩, ⟨10, 0⟩, ⟨10, 10⟩, ⟨0, 10⟩] := by
  have h : orderPoints [⟨10, 10⟩, ⟨0, 0⟩, ⟨10, 0⟩, ⟨0, 10⟩]
      = [⟨0, 0⟩, ⟨0, 10⟩, ⟨10, 10⟩, ⟨10, 0⟩] := by
    decide!
  refine ⟨h, ?_⟩
  rw [h]
  intro hc
  have h2 := (List.cons.inj (List.cons.inj hc).2).1
  have h3 : (0 : ℚ) = 10 := congrArg Point2f.x h2
  norm_num at h3

/-- C2 (counterexample): on `[(1,1),(0,0),(2,0),(3,0)]`, where `(1,1)` and
`(0,0)` tie for the least `x - y`, a second application of `orderPoints`
changes the result. -/
theorem orderPoints_not_idempotent :
    orderPoints (orderPoints [⟨1, 1⟩, ⟨0, 0⟩, ⟨2, 0⟩, ⟨3, 0⟩])
      ≠ orderPoints [⟨1, 1⟩, ⟨0, 0⟩, ⟨2, 0⟩, ⟨3, 0⟩] := by
  have h1 : orderPoints [⟨1, 1⟩, ⟨0, 0⟩, ⟨2, 0⟩, ⟨3, 0⟩]
      = [⟨0, 0⟩, ⟨1, 1⟩, ⟨3, 0⟩, ⟨3, 0⟩] := by
    decide!
  have h2 : orderPoints [⟨0, 0⟩, ⟨1, 1⟩, ⟨3, 0⟩, ⟨3, 0⟩]
      = [⟨0, 0⟩, ⟨0, 0⟩, ⟨3, 0⟩, ⟨3, 0⟩] := by
    decide!
  rw [h1, h2]
  intro hc
  have h3 := (List.cons.inj (List.cons.inj hc).2).1
  have h4 : (0 : ℚ) = 1 := congrArg Point2f.x h3
  norm_num at h4

/-- C2 (amended): `orderPoints` is idempotent on every list of four points
whose `float` sums and differences do not overflow and in which each of the
four extremes of these computed sums and differences is reached by one point
only. -/
theorem orderPoints_idempotent_of_unique_extremes (pts : List Point2f)
    (hlen : pts.length = 4) (hr : ∀ p ∈ pts, InFloatRange p) (hu : UniqueExtremes pts) :
    orderPoints (orderPoints pts) = orderPoints pts := by
  have h0 : InFloatRange (ptAt pts 0) := hr _ (ptAt_mem pts 0 (by omega))
  obtain ⟨tl, tr, br, bl, heq, htl, htr, hbr, hbl, m1, m2, m3, m4⟩ :=
    orderPoints_extremes pts hlen h0
  have hsub : ∀ q, q ∈ [tl, tr, br, bl] → q ∈ pts := by
    intro q hq
    simp only [List.mem_cons, List.mem_singleton, List.not_mem_nil, or_false] at hq
    rcases hq with h | h | h | h <;> subst h <;> assumption
  have h0q : InFloatRange (ptAt [tl, tr, br, bl] 0) := hr _ htl
  obtain ⟨tl2, tr2, br2, bl2, heq2, htl2, htr2, hbr2, hbl2, n1, n2, n3, n4⟩ :=
    orderPoints_extremes [tl, tr, br, bl] rfl h0q
  obtain ⟨u1, u2, u3, u4⟩ := hu
  have e1 : tl2 = tl := u1 tl2 (hsub _ htl2) tl htl
    (fun r hr2 => le_trans (n1 tl (by simp)) (m1 r hr2)) m1
  have e2 : tr2 = tr := u3 tr2 (hsub _ htr2) tr htr
    (fun r hr2 => le_trans (n2 tr (by simp)) (m2 r hr2)) m2
  have e3 : br2 = br := u2 br2 (hsub _ hbr2) br hbr
    (fun r hr2 => le_trans (m3 r hr2) (n3 br (by simp))) m3
  have e4 : bl2 = bl := u4 bl2 (hsub _ hbl2) bl hbl
    (fun r hr2 => le_trans (m4 r hr2) (n4 bl (by simp))) m4
  rw [heq, heq2, e1, e2, e3, e4]

/-- Witness of `orderPoints_idempotent_of_unique_extremes` on the square
`[(10,10),(0,0),(10,0),(0,10)]`. -/
theorem orderPoints_idempotent_witness :
    UniqueExtremes [⟨10, 10⟩, ⟨0, 0⟩, ⟨10, 0⟩, ⟨0, 10⟩] ∧
    orderPoints (orderPoints [⟨10, 10⟩, ⟨0, 0⟩, ⟨10, 0⟩, ⟨0, 10⟩])
      = orderPoints [⟨10, 10⟩, ⟨0, 0⟩, ⟨10, 0⟩, ⟨0, 10⟩] :=
  have hu : UniqueExtremes [⟨10, 10⟩, ⟨0, 0⟩, ⟨10, 0⟩, ⟨0, 10⟩] := by
    decide!
  ⟨hu, orderPoints_idempotent_of_unique_extremes [⟨10, 10⟩, ⟨0, 0⟩, ⟨10, 0⟩, ⟨0, 10⟩] rfl
    (by decide!) hu⟩

/-! ## Lemmas on the line loop of `loadOBJ` -/

theorem emitFaces_eq_append (outFaces : List Vec3i) (idx : List Int) :
    emitFaces outFaces idx = outFaces ++ emitFaces [] idx := by
  match idx with
  | [] => simp [emitFaces]
  | [_] => simp [emitFaces]
  | [_, _] => simp [emitFaces]
  | [_, _, _] => simp [emitFaces]
  | [_, _, _, _] => simp [emitFaces]
  | _ :: _ :: _ :: _ :: _ :: _ => simp [emitFaces]

theorem mem_emitFaces_nil (f : Vec3i) (idx : List Int) :
    f ∈ emitFaces [] idx ↔
      (∃ a b c, idx = [a, b, c] ∧ f = ⟨a, b, c⟩) ∨
      (∃ a b c d, idx = [a, b, c, d] ∧ (f = ⟨a, b, c⟩ ∨ f = ⟨a, c, d⟩)) := by
  match idx with
  | [] => simp [emitFaces]
  | [_] => simp [emitFaces]
  | [_, _] => simp [emitFaces]
  | [a, b, c] =>
    simp only [emitFaces, List.nil_append, List.mem_singleton]
    constructor
    · intro h; exact Or.inl ⟨a, b, c, rfl, h⟩
    · rintro (⟨a2, b2, c2, h1, h2⟩ | ⟨a2, b2, c2, d2, h1, _⟩)
      · simp only [List.cons.injEq, and_true] at h1
        obtain ⟨rfl, rfl, rfl⟩ := h1
        exact h2
      · simp at h1
  | [a, b, c, d] =>
    simp only [emitFaces, List.nil_append, List.mem_cons, List.mem_singleton, List.not_mem_nil,
      or_false]
    constructor
    · intro h; exact Or.inr ⟨a, b, c, d, rfl, h⟩
    · rintro (⟨a2, b2, c2, h1, _⟩ | ⟨a2, b2, c2, d2, h1, h2⟩)
      · simp at h1
      · simp only [List.cons.injEq, and_true] at h1
        obtain ⟨rfl, rfl, rfl, rfl⟩ := h1
        exact h2
  | _ :: _ :: _ :: _ :: _ :: _ => simp [emitFaces]

theorem loadLine_faces (rd : FloatReader) (out : ObjData) (line : List Char) :
    (loadLine rd out line).faces = out.faces ++ lineFaces line := by
  unfold loadLine lineFaces
  by_cases h0 : line = []
  · subst h0; simp
  · by_cases hv : line.take 2 = ['v', ' ']
    · have hf : ¬ line.take 2 = ['f', ' '] := by rw [hv]; decide
      simp only [h0, hv, hf, if_true, if_false]
      cases readVertex rd line <;> simp
    · by_cases hf : line.take 2 = ['f', ' ']
      · simp only [h0, hv, hf, if_true, if_false]
        exact emitFaces_eq_append _ _
      · simp [h0, hv, hf]

theorem mem_foldl_loadLine_faces (rd : FloatReader) (lines : List (List Char)) (out : ObjData)
    (f : Vec3i) :
    f ∈ (lines.foldl (loadLine rd) out).faces ↔
      f ∈ out.faces ∨ ∃ line ∈ lines, f ∈ lineFaces line := by
  induction lines generalizing out with
  | nil => simp
  | cons l ls ih =>
    rw [List.foldl_cons, ih, loadLine_faces]
    simp only [List.mem_append, List.mem_cons, exists_eq_or_imp]
    tauto

theorem loadLine_vertices_length (rd : FloatReader) (out : ObjData) (line : List Char) :
    line.take 2 = ['f', ' '] → (loadLine rd out line).vertices = out.vertices := by
  intro hf
  have h0 : line ≠ [] := by rintro rfl; simp at hf
  have hv : ¬ line.take 2 = ['v', ' '] := by rw [hf]; decide
  simp [loadLine, h0, hv, hf]

theorem loadLine_of_other (rd : FloatReader) (out : ObjData) (line : List Char)
    (hv : line.take 2 ≠ ['v', ' ']) (hf : line.take 2 ≠ ['f', ' ']) :
    loadLine rd out line = out := by
  unfold loadLine
  simp [hv, hf]

theorem foldl_loadLine_of_other (rd : FloatReader) (lines : List (List Char)) (out : ObjData)
    (h : ∀ line ∈ lines, line.take 2 ≠ ['v', ' '] ∧ line.take 2 ≠ ['f', ' ']) :
    lines.foldl (loadLine rd) out = out := by
  induction lines generalizing out with
  | nil => rfl
  | cons l ls ih =>
    rw [List.foldl_cons, loadLine_of_other rd out l (h l (by simp)).1 (h l (by simp)).2]
    exact ih out (fun line hl => h line (by simp [hl]))

/-! ## Theorems on `loadOBJ` -/

/-- C3 (counterexample): a file with three vertices and the face line
`f 1 2 4` loads successfully and gives the face `(0, 1, 3)`, whose last index
is not below the number of vertices. -/
theorem loadOBJ_emits_out_of_range_face :
    loadOBJ readDecimal (some "v 0 0 0\nv 1 0 0\nv 0 1 0\nf 1 2 4\n") ⟨[], []⟩
        = (true, ⟨[⟨0, 0, 0⟩, ⟨1, 0, 0⟩, ⟨0, 1, 0⟩], [⟨0, 1, 3⟩]⟩) ∧
      ¬ FacesInRange
        (loadOBJ readDecimal (some "v 0 0 0\nv 1 0 0\nv 0 1 0\nf 1 2 4\n") ⟨[], []⟩).2 := by
  have h : loadOBJ readDecimal (some "v 0 0 0\nv 1 0 0\nv 0 1 0\nf 1 2 4\n") ⟨[], []⟩
      = (true, ⟨[⟨0, 0, 0⟩, ⟨1, 0, 0⟩, ⟨0, 1, 0⟩], [⟨0, 1, 3⟩]⟩) := by
    simp [loadOBJ, getlines, getlinesFrom, loadLine, readVertex, readChar, readDecimal,
      isSpace, digitsVal, digitVal, faceIndices, emitFaces, tokens, tokensFrom, pushIndex,
      stoi, indexStrOf, wrapInt32]
  refine ⟨h, ?_⟩
  rw [h]
  intro hc
  have := (hc ⟨0, 1, 3⟩ (by simp)).2.2.2
  simp at this

/-- C3 (amended): `loadOBJ` checks no index against the number of vertices.
The emitted faces have all their indices in `[0, n)`, `n` the number of
emitted vertices, exactly when every index read on a face line with three or
four indices lies in `[0, n)`. -/
theorem loadOBJ_facesInRange_iff (rd : FloatReader) (text : String) (out : ObjData) :
    FacesInRange (loadOBJ rd (some text) out).2 ↔
      ∀ line ∈ getlines text.toList, line.take 2 = ['f', ' '] →
        ((faceIndices line).length = 3 ∨ (faceIndices line).length = 4) →
        ∀ k ∈ faceIndices line,
          0 ≤ k ∧ k < ((loadOBJ rd (some text) out).2.vertices.length : Int) := by
  simp only [loadOBJ, FacesInRange]
  generalize ((getlines text.toList).foldl (loadLine rd) ⟨[], []⟩).vertices.length = n
  constructor
  · intro h line hl hf hlen k hk
    have hface : ∀ f, f ∈ emitFaces [] (faceIndices line) →
        (0 ≤ f.i0 ∧ f.i0 < (n : Int)) ∧ (0 ≤ f.i1 ∧ f.i1 < (n : Int)) ∧
          (0 ≤ f.i2 ∧ f.i2 < (n : Int)) := by
      intro f hfm
      apply h f
      rw [mem_foldl_loadLine_faces]
      exact Or.inr ⟨line, hl, by simp [lineFaces, hf, hfm]⟩
    rcases hlen with h3 | h4
    · obtain ⟨a, b, c, habc⟩ := List.length_eq_three.mp h3
      rw [habc] at hk hface
      have := hface ⟨a, b, c⟩ (by simp [emitFaces])
      simp only [List.mem_cons, List.mem_singleton, List.not_mem_nil, or_false] at hk
      rcases hk with rfl | rfl | rfl
      · exact this.1
      · exact this.2.1
      · exact this.2.2
    · have h4' : ∃ a b c d, faceIndices line = [a, b, c, d] := by
        match hq : faceIndices line, h4 with
        | [a, b, c, d], _ => exact ⟨a, b, c, d, rfl⟩
      obtain ⟨a, b, c, d, habcd⟩ := h4'
      rw [habcd] at hk hface
      have t1 := hface ⟨a, b, c⟩ (by simp [emitFaces])
      have t2 := hface ⟨a, c, d⟩ (by simp [emitFaces])
      simp only [List.mem_cons, List.mem_singleton, List.not_mem_nil, or_false] at hk
      rcases hk with rfl | rfl | rfl | rfl
      · exact t1.1
      · exact t1.2.1
      · exact t1.2.2
      · exact t2.2.2
  · intro h f hfm
    rw [mem_foldl_loadLine_faces] at hfm
    rcases hfm with hfm | ⟨line, hl, hfm⟩
    · simp at hfm
    · unfold lineFaces at hfm
      by_cases hf : line.take 2 = ['f', ' ']
      · rw [if_pos hf, mem_emitFaces_nil] at hfm
        rcases hfm with ⟨a, b, c, hidx, rfl⟩ | ⟨a, b, c, d, hidx, hfe⟩
        · have hk := h line hl hf (Or.inl (by rw [hidx]; rfl))
          rw [hidx] at hk
          exact ⟨hk a (by simp), hk b (by simp), hk c (by simp)⟩
        · have hk := h line hl hf (Or.inr (by rw [hidx]; rfl))
          rw [hidx] at hk
          rcases hfe with rfl | rfl
          · exact ⟨hk a (by simp), hk b (by simp), hk c (by simp)⟩
          · exact ⟨hk a (by simp), hk c (by simp), hk d (by simp)⟩
      · rw [if_neg hf] at hfm
        simp at hfm

/-- C4: on a face line the loader appends one face `(a,b,c)` when the parsed
index list is `[a,b,c]`, the two faces `(a,b,c)`, `(a,c,d)` in that order when
it is `[a,b,c,d]`, and nothing for any other index count; the vertices are
left as they are.  On the four vertices `(0,0,0),(1,0,0),(0,1,0),(1,1,0)` and
`f 1 2 3 4` it gives 4 vertices and the faces `[(0,1,2),(0,2,3)]`. -/
theorem loadOBJ_triangulation (rd : FloatReader) (out : ObjData) (line : List Char)
    (hf : line.take 2 = ['f', ' ']) :
    (loadLine rd out line).vertices = out.vertices ∧
    (∀ a b c, faceIndices line = [a, b, c] →
      (loadLine rd out line).faces = out.faces ++ [⟨a, b, c⟩]) ∧
    (∀ a b c d, faceIndices line = [a, b, c, d] →
      (loadLine rd out line).faces = out.faces ++ [⟨a, b, c⟩, ⟨a, c, d⟩]) ∧
    ((faceIndices line).length ≠ 3 → (faceIndices line).length ≠ 4 →
      (loadLine rd out line).faces = out.faces) ∧
    loadOBJ readDecimal (some "v 0 0 0\nv 1 0 0\nv 0 1 0\nv 1 1 0\nf 1 2 3 4\n") out
      = (true, ⟨[⟨0, 0, 0⟩, ⟨1, 0, 0⟩, ⟨0, 1, 0⟩, ⟨1, 1, 0⟩], [⟨0, 1, 2⟩, ⟨0, 2, 3⟩]⟩) := by
  refine ⟨loadLine_vertices_length rd out line hf, ?_, ?_, ?_, ?_⟩
  · intro a b c h
    rw [loadLine_faces, lineFaces, if_pos hf, h]; rfl
  · intro a b c d h
    rw [loadLine_faces, lineFaces, if_pos hf, h]; rfl
  · intro h3 h4
    rw [loadLine_faces, lineFaces, if_pos hf]
    match hq : faceIndices line with
    | [] => simp [emitFaces]
    | [_] => simp [emitFaces]
    | [_, _] => simp [emitFaces]
    | [_, _, _] => rw [hq] at h3; simp at h3
    | [_, _, _, _] => rw [hq] at h4; simp at h4
    | _ :: _ :: _ :: _ :: _ :: _ => simp [emitFaces]
  · simp [loadOBJ, getlines, getlinesFrom, loadLine, readVertex, readChar, readDecimal,
      isSpace, digitsVal, digitVal, faceIndices, emitFaces, tokens, tokensFrom, pushIndex,
      stoi, indexStrOf, wrapInt32]

/-- Witness of `loadOBJ_triangulation` on the line `f 1 2 3 4` after four
vertices: the quad is split into `(0,1,2)` and `(0,2,3)`. -/
theorem loadOBJ_triangulation_witness :
    "f 1 2 3 4".toList.take 2 = ['f', ' '] ∧
    faceIndices "f 1 2 3 4".toList = [0, 1, 2, 3] ∧
    (loadLine readDecimal ⟨[⟨0, 0, 0⟩, ⟨1, 0, 0⟩, ⟨0, 1, 0⟩, ⟨1, 1, 0⟩], []⟩
      "f 1 2 3 4".toList).faces = [⟨0, 1, 2⟩, ⟨0, 2, 3⟩] :=
  have hf : "f 1 2 3 4".toList.take 2 = ['f', ' '] := by decide
  have hi : faceIndices "f 1 2 3 4".toList = [0, 1, 2, 3] := by decide
  ⟨hf, hi,
    (loadOBJ_triangulation readDecimal ⟨[⟨0, 0, 0⟩, ⟨1, 0, 0⟩, ⟨0, 1, 0⟩, ⟨1, 1, 0⟩], []⟩
      "f 1 2 3 4".toList hf).2.2.1 0 1 2 3 hi⟩

/-- C10 (counterexample): an empty file and a file holding one comment line
both load with result `true` and empty geometry. -/
theorem loadOBJ_empty_file_succeeds :
    loadOBJ readDecimal (some "") ⟨[], []⟩ = (true, ⟨[], []⟩) ∧
    loadOBJ readDecimal (some "# no geometry here\n") ⟨[], []⟩ = (true, ⟨[], []⟩) := by
  constructor <;> decide

/-- C10 (amended): `loadOBJ` returns `false` only when the file cannot be
opened.  For every file that can be opened it returns `true`; when no line
starts with `v ` or `f ` the vertex and face lists it returns are empty. -/
theorem loadOBJ_fails_iff_not_opened (rd : FloatReader) (file : Option String) (out : ObjData) :
    ((loadOBJ rd file out).1 = false ↔ file = none) ∧
    (∀ text, file = some text →
      (∀ line ∈ getlines text.toList, line.take 2 ≠ ['v', ' '] ∧ line.take 2 ≠ ['f', ' ']) →
      loadOBJ rd file out = (true, ⟨[], []⟩)) := by
  constructor
  · cases file <;> simp [loadOBJ]
  · intro text hfile h
    subst hfile
    simp only [loadOBJ]
    rw [foldl_loadLine_of_other rd _ _ h]

/-- Witness of `loadOBJ_fails_iff_not_opened` on a file of one comment
line. -/
theorem loadOBJ_fails_iff_not_opened_witness :
    (∀ line ∈ getlines "# no geometry here\n".toList,
      line.take 2 ≠ ['v', ' '] ∧ line.take 2 ≠ ['f', ' ']) ∧
    loadOBJ readDecimal (some "# no geometry here\n") ⟨[⟨1, 2, 3⟩], []⟩ = (true, ⟨[], []⟩) :=
  have h : ∀ line ∈ getlines "# no geometry here\n".toList,
      line.take 2 ≠ ['v', ' '] ∧ line.take 2 ≠ ['f', ' '] := by decide
  ⟨h, (loadOBJ_fails_iff_not_opened readDecimal (some "# no geometry here\n")
    ⟨[⟨1, 2, 3⟩], []⟩).2 _ rfl h⟩

/-! ## Lemmas on `detectTarget` and on the detect/track step -/

theorem orderPoints_length (pts : List Point2f) : (orderPoints pts).length = 4 := rfl

theorem detectTarget_length (contours : List Contour) (tc : List Point2f) :
    (detectTarget contours tc).1 = true → (detectTarget contours tc).2.length = 4 := by
  unfold detectTarget
  dsimp only
  split_ifs
  · intro h; cases h
  · intro _; rfl

theorem detectTarget_false (contours : List Contour) (tc : List Point2f) :
    (detectTarget contours tc).1 = false → (detectTarget contours tc).2 = tc := by
  unfold detectTarget
  dsimp only
  split_ifs
  · intro _; rfl
  · intro h; cases h

theorem trackStep_detecting (flow : FlowFn) (s : TrackState) (obs : FrameObs)
    (hs : s.isTracking = false) :
    trackStep flow s obs =
      if (detectTarget obs.contours s.targetCorners).1 = true then
        { isTracking := true, targetCorners := (detectTarget obs.contours s.targetCorners).2,
          prevFrame := obs.frame }
      else s := by
  unfold trackStep
  rw [if_pos hs]
  have hf := detectTarget_false obs.contours s.targetCorners
  rcases hd : detectTarget obs.contours s.targetCorners with ⟨b, c⟩
  rw [hd] at hf
  cases b
  · have := hf rfl
    simp only at this
    subst this
    simp
  · simp

theorem trackStep_tracking (flow : FlowFn) (s : TrackState) (obs : FrameObs)
    (hs : s.isTracking = true) :
    trackStep flow s obs =
      if goodCount (flow s.prevFrame obs.frame s.targetCorners).2 < 4 then
        { isTracking := false, targetCorners := [], prevFrame := s.prevFrame }
      else
        { isTracking := true, targetCorners := (flow s.prevFrame obs.frame s.targetCorners).1,
          prevFrame := obs.frame } := by
  unfold trackStep
  have : ¬ s.isTracking = false := by simp [hs]
  rw [if_neg this]
  rcases flow s.prevFrame obs.frame s.targetCorners with ⟨nc, st⟩
  simp only
  split_ifs <;> simp [hs]

theorem trackInv_step (flow : FlowFn) (hflow : FlowSized flow) (s : TrackState) (obs : FrameObs)
    (hne : obs.frame.empty = false) (h : TrackInv s) : TrackInv (trackStep flow s obs) := by
  cases hs : s.isTracking
  · rw [trackStep_detecting flow s obs hs]
    split_ifs with hd
    · intro _
      exact ⟨detectTarget_length _ _ hd, hne⟩
    · exact h
  · rw [trackStep_tracking flow s obs hs]
    split_ifs with hg
    · intro hc; cases hc
    · intro _
      exact ⟨by rw [hflow]; exact (h hs).1, hne⟩

theorem trackInv_run (flow : FlowFn) (hflow : FlowSized flow) (frames : List FrameObs)
    (s : TrackState) (h : TrackInv s) : TrackInv (trackRun flow s frames) := by
  induction frames generalizing s with
  | nil => exact h
  | cons obs rest ih =>
    unfold trackRun
    cases hne : obs.frame.empty
    · simp only [Bool.false_eq_true, if_false]
      exact ih _ (trackInv_step flow hflow s obs hne h)
    · simpa using h

theorem goodCount_foldl (status : List Nat) (k : Nat) :
    status.foldl (fun n b => if b ≠ 0 then n + 1 else n) k
      = k + status.countP (fun b => b ≠ 0) := by
  induction status generalizing k with
  | nil => simp
  | cons b bs ih =>
    rw [List.foldl_cons, ih, List.countP_cons]
    by_cases hb : b = 0
    · simp [hb]
    · simp [hb]; omega

theorem goodCount_lt_iff (status : List Nat) (n : Nat) (hlen : status.length = n) :
    goodCount status < n ↔ ¬ ∀ b ∈ status, b ≠ 0 := by
  unfold goodCount
  rw [goodCount_foldl, Nat.zero_add]
  have hle := List.countP_le_length (fun b => decide (b ≠ 0)) (l := status)
  have heq := List.countP_eq_length (p := fun b => decide (b ≠ 0)) (l := status)
  simp only [decide_eq_true_eq] at heq
  rw [← heq, ← hlen]
  omega

theorem detectTarget_rectContour (tc : List Point2f) :
    detectTarget [rectContour] tc
      = (true, [⟨20, 40⟩, ⟨20, 100⟩, ⟨100, 100⟩, ⟨100, 40⟩]) := by
  have hbest : [rectContour].foldl detectBody (0, []) = (4800, rectContour.approx) := by
    decide!
  have hord : orderPoints (contourCorners rectContour.approx)
      = [⟨20, 40⟩, ⟨20, 100⟩, ⟨100, 100⟩, ⟨100, 40⟩] := by
    decide!
  unfold detectTarget
  simp only [hbest, hord]
  simp [rectContour]

theorem flowSized_flowLost : FlowSized flowLost := fun _ _ _ => rfl

theorem flowSized_flowKeep : FlowSized flowKeep := fun _ _ _ => rfl

theorem trackStep_init_obsRect (flow : FlowFn) :
    trackStep flow trackInit obsRect
      = ⟨true, [⟨20, 40⟩, ⟨20, 100⟩, ⟨100, 100⟩, ⟨100, 40⟩], blankFrame⟩ := by
  rw [trackStep_detecting flow trackInit obsRect rfl]
  simp only [obsRect, detectTarget_rectContour, if_true]

/-! ## Theorems on the detect/track loop -/

/-- C5 (counterexample): after a detection on a non-empty frame the machine
is TRACKING; when the flow then loses the corners it moves to DETECTING with
an empty corner list but the reference frame `prevFrame` is still the frame of
the detection, not an empty one. -/
theorem track_loss_keeps_reference_frame :
    FlowSized flowLost ∧
    (trackRun flowLost trackInit [obsRect]).isTracking = true ∧
    (trackStep flowLost (trackRun flowLost trackInit [obsRect]) obsRect).isTracking = false ∧
    (trackStep flowLost (trackRun flowLost trackInit [obsRect]) obsRect).targetCorners = [] ∧
    (trackStep flowLost (trackRun flowLost trackInit [obsRect]) obsRect).prevFrame.empty
      = false := by
  have h1 : trackRun flowLost trackInit [obsRect]
      = ⟨true, [⟨20, 40⟩, ⟨20, 100⟩, ⟨100, 100⟩, ⟨100, 40⟩], blankFrame⟩ := by
    have he : obsRect.frame.empty = false := by decide
    simp only [trackRun, he, Bool.false_eq_true, if_false]
    exact trackStep_init_obsRect flowLost
  have h2 : trackStep flowLost
      ⟨true, [⟨20, 40⟩, ⟨20, 100⟩, ⟨100, 100⟩, ⟨100, 40⟩], blankFrame⟩ obsRect
      = ⟨false, [], blankFrame⟩ := by
    rw [trackStep_tracking _ _ _ rfl]
    simp [flowLost, goodCount]
  rw [h1, h2]
  exact ⟨flowSized_flowLost, rfl, rfl, rfl, by decide⟩

/-- C5 (amended): for every flow that returns as many points as it is given
and every sequence of frames, a reachable state with `isTracking = true` holds
exactly 4 corners and a non-empty `prevFrame`; a step from TRACKING to
DETECTING empties the corner list and leaves `prevFrame` as it was, hence
non-empty. -/
theorem track_invariant (flow : FlowFn) (hflow : FlowSized flow) (frames : List FrameObs) :
    ((trackRun flow trackInit frames).isTracking = true →
      (trackRun flow trackInit frames).targetCorners.length = 4 ∧
      (trackRun flow trackInit frames).prevFrame.empty = false) ∧
    (∀ obs, (trackRun flow trackInit frames).isTracking = true →
      (trackStep flow (trackRun flow trackInit frames) obs).isTracking = false →
      (trackStep flow (trackRun flow trackInit frames) obs).targetCorners = [] ∧
      (trackStep flow (trackRun flow trackInit frames) obs).prevFrame
        = (trackRun flow trackInit frames).prevFrame ∧
      (trackStep flow (trackRun flow trackInit frames) obs).prevFrame.empty = false) := by
  have hinv : TrackInv (trackRun flow trackInit frames) :=
    trackInv_run flow hflow frames trackInit (by intro h; cases h)
  refine ⟨hinv, ?_⟩
  intro obs hs
  rw [trackStep_tracking flow _ obs hs]
  split_ifs with hg
  · intro _
    exact ⟨rfl, rfl, (hinv hs).2⟩
  · intro hc; cases hc

/-- Witness of `track_invariant`: one detection, then one lost flow. -/
theorem track_invariant_witness :
    FlowSized flowLost ∧
    (trackRun flowLost trackInit [obsRect]).isTracking = true ∧
    (trackRun flowLost trackInit [obsRect]).targetCorners.length = 4 ∧
    (trackRun flowLost trackInit [obsRect]).prevFrame.empty = false :=
  have ht : (trackRun flowLost trackInit [obsRect]).isTracking = true := by
    have he : obsRect.frame.empty = false := by decide
    simp only [trackRun, he, Bool.false_eq_true, if_false]
    rw [trackStep_init_obsRect flowLost]
  ⟨flowSized_flowLost, ht,
    ((track_invariant flowLost flowSized_flowLost [obsRect]).1 ht).1,
    ((track_invariant flowLost flowSized_flowLost [obsRect]).1 ht).2⟩

/-- C6: the machine starts in DETECTING.  In DETECTING a successful
`detectTarget` leads to TRACKING with the detected corners and the current
frame as reference, a failed one leaves the state as it is.  In TRACKING with
four corners and one status entry per corner, the machine stays in TRACKING
exactly when all four status entries are set, then with the corners of the
flow and the current frame as reference; otherwise it moves to DETECTING with
an empty corner list. -/
theorem track_transitions (flow : FlowFn) (s : TrackState) (obs : FrameObs) :
    trackInit.isTracking = false ∧
    (s.isTracking = false → (detectTarget obs.contours s.targetCorners).1 = true →
      trackStep flow s obs
        = ⟨true, (detectTarget obs.contours s.targetCorners).2, obs.frame⟩) ∧
    (s.isTracking = false → (detectTarget obs.contours s.targetCorners).1 = false →
      trackStep flow s obs = s) ∧
    (s.isTracking = true → s.targetCorners.length = 4 →
      (flow s.prevFrame obs.frame s.targetCorners).2.length = s.targetCorners.length →
      ((trackStep flow s obs).isTracking = true ↔
        ∀ b ∈ (flow s.prevFrame obs.frame s.targetCorners).2, b ≠ 0) ∧
      ((∀ b ∈ (flow s.prevFrame obs.frame s.targetCorners).2, b ≠ 0) →
        trackStep flow s obs
          = ⟨true, (flow s.prevFrame obs.frame s.targetCorners).1, obs.frame⟩) ∧
      ((¬ ∀ b ∈ (flow s.prevFrame obs.frame s.targetCorners).2, b ≠ 0) →
        trackStep flow s obs = ⟨false, [], s.prevFrame⟩)) := by
  refine ⟨rfl, ?_, ?_, ?_⟩
  · intro hs hd
    rw [trackStep_detecting flow s obs hs, if_pos hd]
  · intro hs hd
    rw [trackStep_detecting flow s obs hs, if_neg (by simp [hd])]
  · intro hs hc hst
    have hg := goodCount_lt_iff (flow s.prevFrame obs.frame s.targetCorners).2 4 (hst.trans hc)
    rw [trackStep_tracking flow s obs hs]
    refine ⟨?_, ?_, ?_⟩
    · split_ifs with h
      · simp only [Bool.false_eq_true, false_iff]
        exact hg.mp h
      · simp only [true_iff]
        exact not_not.mp (fun hn => h (hg.mpr hn))
    · intro hall
      rw [if_neg (fun h => (hg.mp h) hall)]
    · intro hn
      rw [if_pos (hg.mpr hn)]

/-- Witness of `track_transitions`: from the tracking state reached on
`obsRect`, a flow that keeps all four corners stays in TRACKING. -/
theorem track_transitions_witness :
    (trackStep flowKeep ⟨true, [⟨20, 40⟩, ⟨20, 100⟩, ⟨100, 100⟩, ⟨100, 40⟩], blankFrame⟩
      obsRect).isTracking = true :=
  ((track_transitions flowKeep ⟨true, [⟨20, 40⟩, ⟨20, 100⟩, ⟨100, 100⟩, ⟨100, 40⟩], blankFrame⟩
      obsRect).2.2.2 rfl rfl rfl).1.mpr (by simp [flowKeep])

/-! ## Lemmas on the key dispatch of the calibration loop -/

theorem keyStep_calibrate (fit : FitFn) (s : CalibState) (key : Char) (fileOpens : Bool)
    (hkey : key = 'c' ∨ key = 'C') : keyStep fit s key fileOpens = keyCalibrate fit s := by
  unfold keyStep
  have h1 : ¬ (key = 's' ∨ key = 'S') := by
    rcases hkey with h | h <;> subst h <;> decide
  rw [if_neg h1, if_pos hkey]

theorem keyStep_write (fit : FitFn) (s : CalibState) (key : Char) (fileOpens : Bool)
    (hkey : key = 'w' ∨ key = 'W') : keyStep fit s key fileOpens = keyWrite s fileOpens := by
  unfold keyStep
  have h1 : ¬ (key = 's' ∨ key = 'S') := by
    rcases hkey with h | h <;> subst h <;> decide
  have h2 : ¬ (key = 'c' ∨ key = 'C') := by
    rcases hkey with h | h <;> subst h <;> decide
  rw [if_neg h1, if_neg h2, if_pos hkey]

theorem updateLastValid_fields (s : CalibState) (obs : CalibObs) :
    (updateLastValid s obs).corner_list = s.corner_list ∧
    (updateLastValid s obs).point_list = s.point_list ∧
    (updateLastValid s obs).image_list = s.image_list ∧
    (updateLastValid s obs).calibrated = s.calibrated ∧
    (updateLastValid s obs).cameraMatrix = s.cameraMatrix ∧
    (updateLastValid s obs).distCoeffs = s.distCoeffs ∧
    (updateLastValid s obs).reprojectionError = s.reprojectionError := by
  unfold updateLastValid
  split_ifs <;> simp

/-! ## Theorems on the calibration loop -/

/-- C7: in an iteration with key `c`, when fewer than 5 samples are stored the
fit is not invoked and `cameraMatrix`, `distCoeffs`, `reprojectionError` and
`calibrated` keep their values, so that with `calibrated = false` a following
iteration with key `w` writes no file; when 5 or more samples are stored the
fit is invoked on them and its results are stored. -/
theorem calibration_gate (fit : FitFn) (s : CalibState) (obs : CalibObs)
    (hkey : obs.key = 'c' ∨ obs.key = 'C') :
    (s.corner_list.length < 5 →
      (∀ n, Effect.fitCall n ∉ (calibStep fit s obs).2) ∧
      (calibStep fit s obs).1.cameraMatrix = s.cameraMatrix ∧
      (calibStep fit s obs).1.distCoeffs = s.distCoeffs ∧
      (calibStep fit s obs).1.reprojectionError = s.reprojectionError ∧
      (calibStep fit s obs).1.calibrated = s.calibrated ∧
      (s.calibrated = false → ∀ obs2 : CalibObs, obs2.key = 'w' ∨ obs2.key = 'W' →
        ∀ K D e, Effect.fileWrite K D e ∉ (calibStep fit (calibStep fit s obs).1 obs2).2)) ∧
    (5 ≤ s.corner_list.length →
      Effect.fitCall s.corner_list.length ∈ (calibStep fit s obs).2 ∧
      (calibStep fit s obs).1.calibrated = true ∧
      (calibStep fit s obs).1.cameraMatrix
        = (fit s.point_list s.corner_list
            ⟨(s.image_list.getD 0 Mat.mk0).cols, (s.image_list.getD 0 Mat.mk0).rows⟩
            (initialCameraMatrix
              ⟨(s.image_list.getD 0 Mat.mk0).cols, (s.image_list.getD 0 Mat.mk0).rows⟩)
            [[0], [0], [0], [0], [0]] CALIB_FIX_ASPECT_RATIO).cameraMatrix) := by
  obtain ⟨f1, f2, f3, f4, f5, f6, f7⟩ := updateLastValid_fields s obs
  constructor
  · intro hlt
    have hn : ¬ (updateLastValid s obs).corner_list.length ≥ 5 := by rw [f1]; omega
    have hstep : calibStep fit s obs
        = ({ updateLastValid s obs with frameCount := (updateLastValid s obs).frameCount + 1 },
           [Effect.message "Need at least 5 calibration images."]) := by
      simp only [calibStep, keyStep_calibrate fit _ _ _ hkey, keyCalibrate, if_neg hn]
    rw [hstep]
    refine ⟨by simp, f5, f6, f7, f4, ?_⟩
    intro hcal obs2 hkey2 K D e
    have hc2 : ¬ (updateLastValid
        { updateLastValid s obs with frameCount := (updateLastValid s obs).frameCount + 1 }
        obs2).calibrated = true := by
      rw [(updateLastValid_fields _ obs2).2.2.2.1]
      simp [f4, hcal]
    simp only [calibStep, keyStep_write fit _ _ _ hkey2, keyWrite, if_neg hc2]
    simp
  · intro hge
    have hp : (updateLastValid s obs).corner_list.length ≥ 5 := by rw [f1]; exact hge
    simp only [calibStep, keyStep_calibrate fit _ _ _ hkey, keyCalibrate, if_pos hp, f1, f2, f3]
    simp [hge]

/-- Witness of `calibration_gate`: key `c` on the initial state (no sample)
leaves `calibrated` false and invokes no fit. -/
theorem calibration_gate_witness :
    calibInit.corner_list.length < 5 ∧
    (∀ n, Effect.fitCall n ∉ (calibStep fitEcho calibInit (obsKey 'c')).2) ∧
    (calibStep fitEcho calibInit (obsKey 'c')).1.calibrated = false :=
  ⟨by decide,
    ((calibration_gate fitEcho calibInit (obsKey 'c') (Or.inl rfl)).1 (by decide)).1,
    ((calibration_gate fitEcho calibInit (obsKey 'c') (Or.inl rfl)).1 (by decide)).2.2.2.2.1⟩

/-! ## Theorems on the object-point grid and on `adjustModel` -/

theorem gridRow_eq (ps : Size) (acc : List Point3f) (i : Nat) :
    gridRow ps acc i
      = acc ++ (List.range ps.width.toNat).map
          (fun (j : Nat) => (⟨((j : Int) : ℚ), ((-(i : Int) : Int) : ℚ), 0⟩ : Point3f)) := by
  unfold gridRow
  generalize ps.width.toNat = w
  induction w with
  | zero => simp
  | succ n ih =>
    rw [List.range_succ, List.foldl_append, ih, List.map_append]
    simp

theorem grid_rows (ps : Size) (h : Nat) :
    ((List.range h).foldl (gridRow ps) []).length = h * ps.width.toNat ∧
    ∀ i j : Nat, i < h → j < ps.width.toNat →
      ((List.range h).foldl (gridRow ps) [])[i * ps.width.toNat + j]?
        = some ⟨((j : Int) : ℚ), ((-(i : Int) : Int) : ℚ), 0⟩ := by
  induction h with
  | zero => simp
  | succ n ih =>
    obtain ⟨ihl, ihg⟩ := ih
    rw [List.range_succ, List.foldl_append]
    simp only [List.foldl_cons, List.foldl_nil]
    rw [gridRow_eq]
    constructor
    · rw [List.length_append, ihl, List.length_map, List.length_range]
      ring
    · intro i j hi hj
      rcases Nat.lt_succ_iff_lt_or_eq.mp hi with hlt | rfl
      · have hb : i * ps.width.toNat + j < ((List.range n).foldl (gridRow ps) []).length := by
          rw [ihl]
          calc i * ps.width.toNat + j < i * ps.width.toNat + ps.width.toNat := by omega
            _ = (i + 1) * ps.width.toNat := by ring
            _ ≤ n * ps.width.toNat := Nat.mul_le_mul_right _ hlt
        rw [List.getElem?_append_left hb]
        exact ihg i j hlt hj
      · have hb : ((List.range i).foldl (gridRow ps) []).length ≤ i * ps.width.toNat + j := by
          rw [ihl]; omega
        rw [List.getElem?_append_right hb, ihl]
        simp [hj]

/-- C8: for a pattern of width `W ≥ 0` and height `H ≥ 0` the generated list
has `W * H` points and its element at position `i * W + j` (`i < H`, `j < W`)
is `(j, -i, 0)`; for `(3, 2)` it is the six points of the example; the three
programs build the same list for `(9, 6)`. -/
theorem objectPointGrid_spec (W H : Int) (hW : 0 ≤ W) (hH : 0 ≤ H) :
    ((objectPointGrid ⟨W, H⟩).length : Int) = W * H ∧
    (∀ i j : Nat, (i : Int) < H → (j : Int) < W →
      (objectPointGrid ⟨W, H⟩)[i * W.toNat + j]? = some ⟨(j : ℚ), -(i : ℚ), 0⟩) ∧
    objectPointGrid ⟨3, 2⟩
      = [⟨0, 0, 0⟩, ⟨1, 0, 0⟩, ⟨2, 0, 0⟩, ⟨0, -1, 0⟩, ⟨1, -1, 0⟩, ⟨2, -1, 0⟩] ∧
    point_set = objectPointGrid ⟨9, 6⟩ ∧
    boardObjectPoints_pose = point_set ∧
    boardObjectPoints_read_obj = point_set := by
  obtain ⟨hl, hg⟩ := grid_rows ⟨W, H⟩ H.toNat
  refine ⟨?_, ?_, ?_, rfl, rfl, rfl⟩
  · unfold objectPointGrid
    rw [hl]
    push_cast
    rw [Int.toNat_of_nonneg hW, Int.toNat_of_nonneg hH]
    ring
  · intro i j hi hj
    have := hg i j (by omega) (by simp only; omega)
    unfold objectPointGrid
    simp only at this ⊢
    rw [this]
    simp
  · simp [objectPointGrid, gridRow, List.range_succ]

/-- Witness of `objectPointGrid_spec` on the pattern `(9, 6)`: 54 points, the
one at position `2 * 9 + 4` is `(4, -2, 0)`. -/
theorem objectPointGrid_spec_witness :
    ((objectPointGrid ⟨9, 6⟩).length : Int) = 9 * 6 ∧
    (objectPointGrid ⟨9, 6⟩)[2 * (9 : Int).toNat + 4]? = some ⟨((4 : Nat) : ℚ), -((2 : Nat) : ℚ), 0⟩ :=
  ⟨(objectPointGrid_spec 9 6 (by decide) (by decide)).1,
    (objectPointGrid_spec 9 6 (by decide) (by decide)).2.1 2 4 (by decide) (by decide)⟩

/-- C9 (counterexample): with the arguments of `main`, scale 1 and offset 5,
the vertex `(0, 0, 0.3f)` (the `float` nearest to 0.3 is `5033165/2^24`) gets
the coordinate `z = 5557453/2^20`, the `float` nearest to the sum, and not
`1 * z + 5 = 88919245/2^24`. -/
theorem adjustModel_rounds_the_sum :
    adjustModel [⟨0, 0, 5033165 / 16777216⟩] 1 5 = [⟨0, 0, 5557453 / 1048576⟩] ∧
    adjustModel [⟨0, 0, 5033165 / 16777216⟩] 1 5
      ≠ [⟨1 * 0, 1 * 0, 1 * (5033165 / 16777216) + 5⟩] := by
  decide!

/-- C9 (amended): `adjustModel` keeps the number of vertices and maps the
`k`-th vertex `(x, y, z)` to `(fl(x*s), fl(y*s), fl(fl(z*s) + z0))`, where `fl`
rounds to `float` (a product `z*s` that overflows stays infinite); the result
is `(s*x, s*y, s*z + z0)` whenever these four operations are exact, and
`adjustModel([(1,2,3)], 2, 5)` is `[(2,4,11)]`. -/
theorem adjustModel_rounded (vs : List Point3f) (s z0 : ℚ) :
    (adjustModel vs s z0).length = vs.length ∧
    (∀ (k : Nat) (v : Point3f), vs[k]? = some v →
      (adjustModel vs s z0)[k]?
        = some ⟨roundF32 (v.x * s), roundF32 (v.y * s), addF32 (roundF32 (v.z * s)) z0⟩) ∧
    (∀ (k : Nat) (v : Point3f), vs[k]? = some v →
      roundF32 (v.x * s) = v.x * s → roundF32 (v.y * s) = v.y * s →
      roundF32 (v.z * s) = v.z * s → addF32 (v.z * s) z0 = v.z * s + z0 →
      (adjustModel vs s z0)[k]? = some ⟨s * v.x, s * v.y, s * v.z + z0⟩) ∧
    adjustModel [⟨1, 2, 3⟩] 2 5 = [⟨2, 4, 11⟩] := by
  have hk : ∀ (k : Nat) (v : Point3f), vs[k]? = some v →
      (adjustModel vs s z0)[k]?
        = some ⟨roundF32 (v.x * s), roundF32 (v.y * s), addF32 (roundF32 (v.z * s)) z0⟩ := by
    intro k v hv
    simp [adjustModel, List.getElem?_map, hv, adjustVertex]
  refine ⟨by simp [adjustModel], hk, ?_, by decide!⟩
  intro k v hv ex ey ez es
  rw [hk k v hv, ez, es, ex, ey]
  simp [mul_comm]

/-- Witness of `adjustModel_rounded`: the second of two vertices, for which
all four operations are exact. -/
theorem adjustModel_rounded_witness :
    (adjustModel [⟨0, 0, 0⟩, ⟨1, 2, 3⟩] 2 5)[1]? = some ⟨2 * 1, 2 * 2, 2 * 3 + 5⟩ :=
  (adjustModel_rounded [⟨0, 0, 0⟩, ⟨1, 2, 3⟩] 2 5).2.2.1 1 ⟨1, 2, 3⟩ rfl
    (by decide!) (by decide!) (by decide!) (by decide!)

/-! ## Lemmas on the face tokens of `loadOBJ` -/

theorem digitChars_facts (c : Char) (hc : c ∈ digitChars) :
    c.isDigit = true ∧ isSpace c = false ∧ c ≠ '-' ∧ c ≠ '+' ∧ c ≠ '/' := by
  simp only [digitChars, List.mem_cons, List.mem_singleton, List.not_mem_nil, or_false] at hc
  rcases hc with h | h | h | h | h | h | h | h | h | h <;> subst h <;> decide

theorem ofNat_mem_digitChars (d : Nat) (hd : d < 10) :
    Char.ofNat (48 + d) ∈ digitChars ∧ digitVal (Char.ofNat (48 + d)) = d := by
  interval_cases d <;> decide

theorem decimal_digits (n : Nat) : ∀ c ∈ decimal n, c ∈ digitChars := by
  intro c hc
  simp only [decimal, List.mem_map, List.mem_reverse] at hc
  obtain ⟨d, hd, rfl⟩ := hc
  exact (ofNat_mem_digitChars d (Nat.digits_lt_base (by decide) hd)).1

theorem digitsVal_map_reverse (L : List Nat) (hL : ∀ d ∈ L, d < 10) :
    digitsVal (L.reverse.map (fun d => Char.ofNat (48 + d))) = Nat.ofDigits 10 L := by
  unfold digitsVal
  induction L with
  | nil => simp
  | cons d ds ih =>
    rw [List.reverse_cons, List.map_append, List.foldl_append, ih (fun x hx => hL x (by simp [hx]))]
    simp only [List.map_cons, List.map_nil, List.foldl_cons, List.foldl_nil]
    rw [(ofNat_mem_digitChars d (hL d (by simp))).2, Nat.ofDigits_cons]
    omega

theorem digitsVal_decimal (n : Nat) : digitsVal (decimal n) = n := by
  unfold decimal
  rw [digitsVal_map_reverse _ (fun d hd => Nat.digits_lt_base (by decide) hd)]
  exact Nat.ofDigits_digits 10 n

theorem decimal_ne_nil (n : Nat) (hn : 1 ≤ n) : decimal n ≠ [] := by
  unfold decimal
  simp only [ne_eq, List.map_eq_nil_iff, List.reverse_eq_nil_iff]
  rw [Nat.digits_eq_nil_iff_eq_zero]
  omega

theorem takeWhile_append_of_all {α : Type} (p : α → Bool) (xs ys : List α)
    (h : ∀ x ∈ xs, p x = true) : (xs ++ ys).takeWhile p = xs ++ ys.takeWhile p := by
  induction xs with
  | nil => rfl
  | cons x t ih =>
    rw [List.cons_append, List.takeWhile_cons, h x (by simp)]
    simp only [if_true, List.cons_append, List.cons.injEq, true_and]
    exact ih (fun y hy => h y (by simp [hy]))

/-- `stoi` on a non-empty run of digits followed by anything that does not
start with a digit. -/
theorem stoi_digits (ds tail : List Char) (hne : ds ≠ []) (hd : ∀ c ∈ ds, c ∈ digitChars)
    (htail : tail.takeWhile Char.isDigit = []) :
    stoi (ds ++ tail)
      = if (2147483647 : Int) < (digitsVal ds : Int) then none else some (digitsVal ds : Int) := by
  obtain ⟨c, t, rfl⟩ := List.exists_cons_of_ne_nil hne
  obtain ⟨h1, h2, h3, h4, _⟩ := digitChars_facts c (hd c (by simp))
  have htw : ((c :: t) ++ tail).takeWhile Char.isDigit = c :: t := by
    rw [takeWhile_append_of_all _ _ _ (fun x hx => (digitChars_facts x (hd x hx)).1), htail]
    simp
  have hdw : ((c :: t) ++ tail).dropWhile isSpace = (c :: t) ++ tail := by
    simp [List.dropWhile_cons, h2]
  unfold stoi
  simp only [hdw]
  have hh : ((c :: t) ++ tail).head? = some c := rfl
  simp only [hh, Option.some.injEq, h3, h4, or_self, if_false, decide_False, htw]
  simp only [reduceCtorEq, if_false, Bool.false_eq_true]
  have hnn : ¬ ((digitsVal (c :: t) : Int) < -2147483648) := by
    have : (0 : Int) ≤ (digitsVal (c :: t) : Int) := Int.ofNat_nonneg _
    omega
  simp only [hnn, false_or]

theorem indexStrOf_digits_slash (ds tail : List Char) (hd : ∀ c ∈ ds, c ∈ digitChars) :
    indexStrOf (ds ++ '/' :: tail) = ds ∧ indexStrOf ds = ds := by
  have hall : ∀ x ∈ ds, (fun c => decide (c ≠ '/')) x = true := by
    intro x hx
    simpa using (digitChars_facts x (hd x hx)).2.2.2.2
  constructor
  · unfold indexStrOf
    rw [takeWhile_append_of_all _ _ _ hall]
    simp
  · unfold indexStrOf
    have := takeWhile_append_of_all (fun c => decide (c ≠ '/')) ds [] hall
    simpa using this

theorem pushIndex_eq (idx : List Int) (token : List Char) :
    pushIndex idx token = idx ++ (parseIndex token).toList := by
  unfold pushIndex parseIndex
  cases stoi (indexStrOf token) <;> simp

theorem foldl_pushIndex (toks : List (List Char)) (idx : List Int) :
    toks.foldl pushIndex idx = idx ++ toks.filterMap parseIndex := by
  induction toks generalizing idx with
  | nil => simp
  | cons t ts ih =>
    rw [List.foldl_cons, ih, pushIndex_eq, List.filterMap_cons]
    cases parseIndex t <;> simp

theorem faceIndices_eq (line : List Char) (hf : line.take 2 = ['f', ' ']) :
    faceIndices line = (tokens (line.drop 1)).filterMap parseIndex := by
  match line, hf with
  | c :: d :: rest, hf =>
    simp only [List.take_succ_cons, List.take_zero, List.cons.injEq, and_true] at hf
    obtain ⟨rfl, rfl⟩ := hf
    have hr : readChar ('f' :: ' ' :: rest) = some ('f', ' ' :: rest) := by
      simp [readChar, List.dropWhile_cons, isSpace]
    unfold faceIndices
    rw [hr]
    simp only [List.drop_succ_cons, List.drop_zero]
    rw [foldl_pushIndex]
    simp

/-- A property of indices holds for all indices of all emitted faces exactly
when it holds for every index read on a face line with three or four
indices. -/
theorem foldl_loadLine_faces_all_iff (P : Int → Prop) (rd : FloatReader)
    (lines : List (List Char)) :
    (∀ f ∈ (lines.foldl (loadLine rd) ⟨[], []⟩).faces, P f.i0 ∧ P f.i1 ∧ P f.i2) ↔
      ∀ line ∈ lines, line.take 2 = ['f', ' '] →
        ((faceIndices line).length = 3 ∨ (faceIndices line).length = 4) →
        ∀ k ∈ faceIndices line, P k := by
  constructor
  · intro h line hl hf hlen k hk
    have hface : ∀ f, f ∈ emitFaces [] (faceIndices line) → P f.i0 ∧ P f.i1 ∧ P f.i2 := by
      intro f hfm
      apply h f
      rw [mem_foldl_loadLine_faces]
      exact Or.inr ⟨line, hl, by simp [lineFaces, hf, hfm]⟩
    rcases hlen with h3 | h4
    · obtain ⟨a, b, c, habc⟩ := List.length_eq_three.mp h3
      rw [habc] at hk hface
      have := hface ⟨a, b, c⟩ (by simp [emitFaces])
      simp only [List.mem_cons, List.mem_singleton, List.not_mem_nil, or_false] at hk
      rcases hk with rfl | rfl | rfl
      · exact this.1
      · exact this.2.1
      · exact this.2.2
    · have h4' : ∃ a b c d, faceIndices line = [a, b, c, d] := by
        match hq : faceIndices line, h4 with
        | [a, b, c, d], _ => exact ⟨a, b, c, d, rfl⟩
      obtain ⟨a, b, c, d, habcd⟩ := h4'
      rw [habcd] at hk hface
      have t1 := hface ⟨a, b, c⟩ (by simp [emitFaces])
      have t2 := hface ⟨a, c, d⟩ (by simp [emitFaces])
      simp only [List.mem_cons, List.mem_singleton, List.not_mem_nil, or_false] at hk
      rcases hk with rfl | rfl | rfl | rfl
      · exact t1.1
      · exact t1.2.1
      · exact t1.2.2
      · exact t2.2.2
  · intro h f hfm
    rw [mem_foldl_loadLine_faces] at hfm
    rcases hfm with hfm | ⟨line, hl, hfm⟩
    · simp at hfm
    · unfold lineFaces at hfm
      by_cases hf : line.take 2 = ['f', ' ']
      · rw [if_pos hf, mem_emitFaces_nil] at hfm
        rcases hfm with ⟨a, b, c, hidx, rfl⟩ | ⟨a, b, c, d, hidx, hfe⟩
        · have hk := h line hl hf (Or.inl (by rw [hidx]; rfl))
          rw [hidx] at hk
          exact ⟨hk a (by simp), hk b (by simp), hk c (by simp)⟩
        · have hk := h line hl hf (Or.inr (by rw [hidx]; rfl))
          rw [hidx] at hk
          rcases hfe with rfl | rfl
          · exact ⟨hk a (by simp), hk b (by simp), hk c (by simp)⟩
          · exact ⟨hk a (by simp), hk c (by simp), hk d (by simp)⟩
      · rw [if_neg hf] at hfm
        simp at hfm

/-! ## Theorems on the face tokens and malformed lines of `loadOBJ` -/

/-- C11 (counterexample): the face line `f 0 1 2` is not skipped; it gives
the face `(-1, 0, 1)`, and `f -1 2 3` gives `(-2, 1, 2)`. -/
theorem loadOBJ_emits_negative_index :
    loadOBJ readDecimal (some "v 0 0 0\nv 1 0 0\nf 0 1 2\nf -1 2 3\n") ⟨[], []⟩
      = (true, ⟨[⟨0, 0, 0⟩, ⟨1, 0, 0⟩], [⟨-1, 0, 1⟩, ⟨-2, 1, 2⟩]⟩) := by
  simp [loadOBJ, getlines, getlinesFrom, loadLine, readVertex, readChar, readDecimal,
    isSpace, digitsVal, digitVal, faceIndices, emitFaces, tokens, tokensFrom, pushIndex,
    stoi, indexStrOf, wrapInt32]

/-- C11 (amended): `loadOBJ` skips no face line for a zero or negative index.
A token whose index `k` in the file is zero or negative (above `INT_MIN`) adds
the negative 0-based index `k - 1`, and the emitted faces are free of negative
indices exactly when no face line with three or four indices has read a
negative one. -/
theorem loadOBJ_negative_indices (rd : FloatReader) (text : String) (out : ObjData) :
    (∀ (idx : List Int) (token : List Char) (k : Int),
      stoi (indexStrOf token) = some k → k ≤ 0 → -2147483648 < k →
      pushIndex idx token = idx ++ [k - 1] ∧ k - 1 < 0) ∧
    ((∀ f ∈ (loadOBJ rd (some text) out).2.faces, 0 ≤ f.i0 ∧ 0 ≤ f.i1 ∧ 0 ≤ f.i2) ↔
      ∀ line ∈ getlines text.toList, line.take 2 = ['f', ' '] →
        ((faceIndices line).length = 3 ∨ (faceIndices line).length = 4) →
        ∀ k ∈ faceIndices line, 0 ≤ k) := by
  constructor
  · intro idx token k hs hk0 hkmin
    have hw : wrapInt32 (k - 1) = k - 1 := by
      unfold wrapInt32
      omega
    simp only [pushIndex, hs, hw, true_and]
    omega
  · simp only [loadOBJ]
    exact foldl_loadLine_faces_all_iff (fun k => 0 ≤ k) rd _

/-- Witness of `loadOBJ_negative_indices`: the token `0` adds the index
`-1`. -/
theorem loadOBJ_negative_indices_witness :
    stoi (indexStrOf "0".toList) = some 0 ∧
    pushIndex [] "0".toList = [] ++ [(0 : Int) - 1] ∧ (0 : Int) - 1 < 0 :=
  have hs : stoi (indexStrOf "0".toList) = some 0 := by decide
  ⟨hs, (loadOBJ_negative_indices readDecimal "" ⟨[], []⟩).1 [] "0".toList 0 hs
    (by decide) (by decide)⟩

/-- C12 (counterexample): the token `2147483648`, the numeral of a positive
integer, records no index at all (`stoi` throws `out_of_range`), so that
`f 2147483648 1 2 3` gives the one face `(0, 1, 2)`. -/
theorem face_token_above_int_max_is_dropped :
    decimal 2147483648 = "2147483648".toList ∧
    pushIndex [] (decimal 2147483648) = [] ∧
    loadOBJ readDecimal (some "f 2147483648 1 2 3\n") ⟨[], []⟩
      = (true, ⟨[], [⟨0, 1, 2⟩]⟩) := by
  refine ⟨by norm_num [decimal], ?_, ?_⟩
  · rw [pushIndex_eq, parseIndex, (indexStrOf_digits_slash _ [] (decimal_digits _)).2]
    have h := stoi_digits (decimal 2147483648) [] (decimal_ne_nil _ (by decide))
      (decimal_digits _) rfl
    rw [List.append_nil, digitsVal_decimal] at h
    rw [h]
    simp
  · simp [loadOBJ, getlines, getlinesFrom, loadLine, readVertex, readChar, readDecimal,
      isSpace, digitsVal, digitVal, faceIndices, emitFaces, tokens, tokensFrom, pushIndex,
      stoi, indexStrOf, wrapInt32]

/-- C12 (amended): for every integer `i` with `1 ≤ i ≤ 2147483647` and every
face token `i`, `i/t`, `i/t/n` or `i//n` (`t`, `n` any character sequences),
the token adds the 0-based index `i - 1`, whatever `t` and `n` are. -/
theorem face_token_first_subtoken (i : Nat) (hi : 1 ≤ i) (hmax : i ≤ 2147483647)
    (t n : List Char) (idx : List Int) :
    pushIndex idx (decimal i) = idx ++ [(i : Int) - 1] ∧
    pushIndex idx (decimal i ++ '/' :: t) = idx ++ [(i : Int) - 1] ∧
    pushIndex idx (decimal i ++ '/' :: (t ++ '/' :: n)) = idx ++ [(i : Int) - 1] ∧
    pushIndex idx (decimal i ++ '/' :: '/' :: n) = idx ++ [(i : Int) - 1] := by
  have hs : stoi (decimal i) = some (i : Int) := by
    have h := stoi_digits (decimal i) [] (decimal_ne_nil i hi) (decimal_digits i) rfl
    rw [List.append_nil, digitsVal_decimal] at h
    rw [h, if_neg (by omega)]
  have hw : wrapInt32 ((i : Int) - 1) = (i : Int) - 1 := by
    unfold wrapInt32
    omega
  have key : ∀ tail : List Char,
      pushIndex idx (decimal i ++ '/' :: tail) = idx ++ [(i : Int) - 1] := by
    intro tail
    simp only [pushIndex, (indexStrOf_digits_slash (decimal i) tail (decimal_digits i)).1, hs, hw]
  refine ⟨?_, key t, key _, key _⟩
  simp only [pushIndex, (indexStrOf_digits_slash (decimal i) [] (decimal_digits i)).2, hs, hw]

/-- Witness of `face_token_first_subtoken`: the tokens `7`, `7/1`, `7/1/2`
and `7//2` all add the index `6`. -/
theorem face_token_first_subtoken_witness :
    pushIndex [] (decimal 7) = [] ++ [((7 : Nat) : Int) - 1] ∧
    pushIndex [] (decimal 7 ++ '/' :: ['1']) = [] ++ [((7 : Nat) : Int) - 1] ∧
    pushIndex [] (decimal 7 ++ '/' :: (['1'] ++ '/' :: ['2'])) = [] ++ [((7 : Nat) : Int) - 1] ∧
    pushIndex [] (decimal 7 ++ '/' :: '/' :: ['2']) = [] ++ [((7 : Nat) : Int) - 1] :=
  face_token_first_subtoken 7 (by decide) (by decide) ['1'] ['2'] []

/-- C13 (counterexample): the face line `f 1 2 x 3` is not skipped; the
token `x` alone is dropped and the face `(0, 1, 2)` is emitted. -/
theorem loadOBJ_keeps_face_line_with_bad_token :
    loadOBJ readDecimal (some "f 1 2 x 3\n") ⟨[], []⟩ = (true, ⟨[], [⟨0, 1, 2⟩]⟩) := by
  decide

/-- C13 (amended): on a face line each token whose first sub-token does not
convert is dropped alone and the line is triangulated from the indices of the
other tokens; a vertex line from which three floats cannot be read adds no
vertex and no face; every line is processed from the state the lines before it
have left, whatever they were. -/
theorem loadOBJ_malformed_lines (rd : FloatReader) (out : ObjData) (line : List Char) :
    (line.take 2 = ['f', ' '] →
      faceIndices line = (tokens (line.drop 1)).filterMap parseIndex ∧
      (loadLine rd out line).faces
        = out.faces ++ emitFaces [] ((tokens (line.drop 1)).filterMap parseIndex) ∧
      (loadLine rd out line).vertices = out.vertices) ∧
    (line.take 2 = ['v', ' '] → readVertex rd line = none → loadLine rd out line = out) ∧
    (∀ before after : List (List Char),
      (before ++ line :: after).foldl (loadLine rd) out
        = after.foldl (loadLine rd) (loadLine rd (before.foldl (loadLine rd) out) line)) := by
  refine ⟨?_, ?_, ?_⟩
  · intro hf
    refine ⟨faceIndices_eq line hf, ?_, loadLine_vertices_length rd out line hf⟩
    rw [loadLine_faces, lineFaces, if_pos hf, faceIndices_eq line hf]
  · intro hv hr
    have h0 : line ≠ [] := by rintro rfl; simp at hv
    simp [loadLine, h0, hv, hr]
  · intro before after
    rw [List.foldl_append, List.foldl_cons]

/-- Witness of `loadOBJ_malformed_lines`: the line `v 1 2` adds nothing, and
the lines after it are still loaded. -/
theorem loadOBJ_malformed_lines_witness :
    readVertex readDecimal "v 1 2".toList = none ∧
    loadLine readDecimal ⟨[], []⟩ "v 1 2".toList = ⟨[], []⟩ ∧
    loadOBJ readDecimal (some "v 1 2\nf 1 2 x 3\nv 0 0 0\n") ⟨[], []⟩
      = (true, ⟨[⟨0, 0, 0⟩], [⟨0, 1, 2⟩]⟩) :=
  have hr : readVertex readDecimal "v 1 2".toList = none := by
    simp [readVertex, readChar, readDecimal, isSpace]
  ⟨hr, (loadOBJ_malformed_lines readDecimal ⟨[], []⟩ "v 1 2".toList).2.1 (by decide) hr,
    by simp [loadOBJ, getlines, getlinesFrom, loadLine, readVertex, readChar, readDecimal,
      isSpace, digitsVal, digitVal, faceIndices, emitFaces, tokens, tokensFrom, pushIndex,
      stoi, indexStrOf, wrapInt32]⟩

/-! ## Lemmas on the wireframe loops -/

theorem indexInvalid_eq_false_iff (i : Int) (n : Nat) (hi : IsInt32 i) :
    indexInvalid i n = false ↔ (0 ≤ i ∧ i < (n : Int)) := by
  obtain ⟨h1, h2⟩ := hi
  unfold indexInvalid toSizeT
  simp only [Bool.or_eq_false_iff, decide_eq_false_iff_not, not_lt, not_le]
  constructor
  · rintro ⟨h0, hn⟩
    have hm : i % 18446744073709551616 = i := Int.emod_eq_of_lt h0 (by omega)
    rw [hm] at hn
    omega
  · rintro ⟨h0, hn⟩
    have hm : i % 18446744073709551616 = i := Int.emod_eq_of_lt h0 (by omega)
    rw [hm]
    omega

theorem pointAt_of_valid (pp : List Point2f) (i : Int) (hi : IsInt32 i) (h0 : 0 ≤ i)
    (hn : i < (pp.length : Int)) : pointAt pp i = some (pp.getD i.toNat ⟨0, 0⟩) := by
  unfold pointAt toSizeT
  have hm : i % 18446744073709551616 = i := Int.emod_eq_of_lt h0 (by have := hi.2; omega)
  rw [hm]
  have hlt : i.toNat < pp.length := by omega
  rw [List.getD_eq_getElem pp _ hlt, List.getElem?_eq_getElem hlt]

theorem drawFace_read_obj_eq (cast : PointCast) (pp : List Point2f) (drawn : List Segment)
    (face : Vec3i) (h0 : IsInt32 face.i0) (h1 : IsInt32 face.i1) (h2 : IsInt32 face.i2) :
    drawFace_read_obj cast pp drawn face = some (drawn ++ faceSegments cast pp face) := by
  unfold drawFace_read_obj faceSegments
  by_cases hv : (0 ≤ face.i0 ∧ face.i0 < (pp.length : Int)) ∧
      (0 ≤ face.i1 ∧ face.i1 < (pp.length : Int)) ∧
      (0 ≤ face.i2 ∧ face.i2 < (pp.length : Int))
  · obtain ⟨v0, v1, v2⟩ := hv
    have e0 := (indexInvalid_eq_false_iff face.i0 pp.length h0).mpr v0
    have e1 := (indexInvalid_eq_false_iff face.i1 pp.length h1).mpr v1
    have e2 := (indexInvalid_eq_false_iff face.i2 pp.length h2).mpr v2
    simp only [e0, e1, e2, Bool.or_self, Bool.false_eq_true, if_false,
      pointAt_of_valid pp _ h0 v0.1 v0.2, pointAt_of_valid pp _ h1 v1.1 v1.2,
      pointAt_of_valid pp _ h2 v2.1 v2.2, v0, v1, v2, and_self, if_true]
  · have hinv : (indexInvalid face.i0 pp.length || indexInvalid face.i1 pp.length ||
        indexInvalid face.i2 pp.length) = true := by
      by_contra hc
      simp only [Bool.not_eq_true, Bool.or_eq_false_iff] at hc
      obtain ⟨⟨c0, c1⟩, c2⟩ := hc
      exact hv ⟨(indexInvalid_eq_false_iff _ _ h0).mp c0, (indexInvalid_eq_false_iff _ _ h1).mp c1,
        (indexInvalid_eq_false_iff _ _ h2).mp c2⟩
    simp only [hinv, if_true, if_neg hv, List.append_nil]

theorem drawFace_extension_eq (cast : PointCast) (pp : List Point2f) (drawn : List Segment)
    (face : Vec3i) (h0 : IsInt32 face.i0) (h1 : IsInt32 face.i1) (h2 : IsInt32 face.i2) :
    drawFace_extension cast pp drawn face = some (drawn ++ faceSegments cast pp face) := by
  unfold drawFace_extension faceSegments
  by_cases hv : (0 ≤ face.i0 ∧ face.i0 < (pp.length : Int)) ∧
      (0 ≤ face.i1 ∧ face.i1 < (pp.length : Int)) ∧
      (0 ≤ face.i2 ∧ face.i2 < (pp.length : Int))
  · obtain ⟨v0, v1, v2⟩ := hv
    have e0 := (indexInvalid_eq_false_iff face.i0 pp.length h0).mpr v0
    have e1 := (indexInvalid_eq_false_iff face.i1 pp.length h1).mpr v1
    have e2 := (indexInvalid_eq_false_iff face.i2 pp.length h2).mpr v2
    simp only [e0, e1, e2, Bool.or_self, Bool.false_eq_true, if_false,
      pointAt_of_valid pp _ h0 v0.1 v0.2, pointAt_of_valid pp _ h1 v1.1 v1.2,
      pointAt_of_valid pp _ h2 v2.1 v2.2, v0, v1, v2, and_self, if_true, List.append_assoc,
      List.singleton_append, List.cons_append, List.nil_append]
  · have hinv : (indexInvalid face.i0 pp.length || indexInvalid face.i1 pp.length ||
        indexInvalid face.i2 pp.length) = true := by
      by_contra hc
      simp only [Bool.not_eq_true, Bool.or_eq_false_iff] at hc
      obtain ⟨⟨c0, c1⟩, c2⟩ := hc
      exact hv ⟨(indexInvalid_eq_false_iff _ _ h0).mp c0, (indexInvalid_eq_false_iff _ _ h1).mp c1,
        (indexInvalid_eq_false_iff _ _ h2).mp c2⟩
    simp only [hinv, if_true, if_neg hv, List.append_nil]

theorem foldlM_drawFace (draw : List Segment → Vec3i → Option (List Segment))
    (cast : PointCast) (pp : List Point2f) (faces : List Vec3i) (drawn : List Segment)
    (hdraw : ∀ d f, f ∈ faces → draw d f = some (d ++ faceSegments cast pp f)) :
    faces.foldlM draw drawn = some (drawn ++ faces.flatMap (faceSegments cast pp)) := by
  induction faces generalizing drawn with
  | nil => simp
  | cons f fs ih =>
    rw [List.foldlM_cons, hdraw drawn f (by simp)]
    simp only [Option.some_bind, Option.bind_eq_bind]
    rw [ih _ (fun d g hg => hdraw d g (by simp [hg]))]
    simp [List.flatMap_cons]

/-! ## Theorems on the wireframe loops and the checkerboard test -/

/-- C14: for `n` projected points and any list of faces with `int` indices,
the face loop never reads outside the point list and draws, face by face, the
three segments `(p[i1],p[i2])`, `(p[i2],p[i3])`, `(p[i3],p[i1])` of every face
with all indices in `[0, n)` and nothing for any other face; the loops of
read_obj.cpp and extension.cpp draw the same segments. -/
theorem renderFaces_spec (cast : PointCast) (projectedPoints : List Point2f)
    (objFaces : List Vec3i)
    (hint : ∀ f ∈ objFaces, IsInt32 f.i0 ∧ IsInt32 f.i1 ∧ IsInt32 f.i2) :
    renderFaces_read_obj cast projectedPoints objFaces
      = some (objFaces.flatMap (faceSegments cast projectedPoints)) ∧
    renderFaces_extension cast projectedPoints objFaces
      = renderFaces_read_obj cast projectedPoints objFaces ∧
    (∀ f ∈ objFaces,
      ((0 ≤ f.i0 ∧ f.i0 < (projectedPoints.length : Int)) ∧
        (0 ≤ f.i1 ∧ f.i1 < (projectedPoints.length : Int)) ∧
        (0 ≤ f.i2 ∧ f.i2 < (projectedPoints.length : Int)) →
        ∃ p1 p2 p3, projectedPoints[f.i0.toNat]? = some p1 ∧
          projectedPoints[f.i1.toNat]? = some p2 ∧ projectedPoints[f.i2.toNat]? = some p3 ∧
          faceSegments cast projectedPoints f
            = [(cast p1, cast p2), (cast p2, cast p3), (cast p3, cast p1)]) ∧
      (¬ ((0 ≤ f.i0 ∧ f.i0 < (projectedPoints.length : Int)) ∧
          (0 ≤ f.i1 ∧ f.i1 < (projectedPoints.length : Int)) ∧
          (0 ≤ f.i2 ∧ f.i2 < (projectedPoints.length : Int))) →
        faceSegments cast projectedPoints f = [])) := by
  have h1 : renderFaces_read_obj cast projectedPoints objFaces
      = some (objFaces.flatMap (faceSegments cast projectedPoints)) := by
    unfold renderFaces_read_obj
    rw [foldlM_drawFace _ cast projectedPoints objFaces []
      (fun d f hf => drawFace_read_obj_eq cast projectedPoints d f (hint f hf).1 (hint f hf).2.1
        (hint f hf).2.2)]
    simp
  have h2 : renderFaces_extension cast projectedPoints objFaces
      = some (objFaces.flatMap (faceSegments cast projectedPoints)) := by
    unfold renderFaces_extension
    rw [foldlM_drawFace _ cast projectedPoints objFaces []
      (fun d f hf => drawFace_extension_eq cast projectedPoints d f (hint f hf).1 (hint f hf).2.1
        (hint f hf).2.2)]
    simp
  refine ⟨h1, by rw [h1, h2], ?_⟩
  intro f _
  constructor
  · intro hv
    obtain ⟨v0, v1, v2⟩ := hv
    have l0 : f.i0.toNat < projectedPoints.length := by omega
    have l1 : f.i1.toNat < projectedPoints.length := by omega
    have l2 : f.i2.toNat < projectedPoints.length := by omega
    refine ⟨projectedPoints[f.i0.toNat], projectedPoints[f.i1.toNat],
      projectedPoints[f.i2.toNat], List.getElem?_eq_getElem l0, List.getElem?_eq_getElem l1,
      List.getElem?_eq_getElem l2, ?_⟩
    unfold faceSegments
    rw [if_pos ⟨v0, v1, v2⟩, List.getD_eq_getElem _ _ l0, List.getD_eq_getElem _ _ l1,
      List.getD_eq_getElem _ _ l2]
  · intro hv
    unfold faceSegments
    rw [if_neg hv]

/-- Witness of `renderFaces_spec`: three points, one valid face, one face
with the index 3 and one with the index -1. -/
theorem renderFaces_spec_witness :
    renderFaces_read_obj floorCast [⟨0, 0⟩, ⟨10, 0⟩, ⟨0, 10⟩]
        [⟨0, 1, 2⟩, ⟨0, 1, 3⟩, ⟨-1, 0, 1⟩]
      = some ([(⟨0, 1, 2⟩ : Vec3i), ⟨0, 1, 3⟩, ⟨-1, 0, 1⟩].flatMap
          (faceSegments floorCast [⟨0, 0⟩, ⟨10, 0⟩, ⟨0, 10⟩])) :=
  (renderFaces_spec floorCast [⟨0, 0⟩, ⟨10, 0⟩, ⟨0, 10⟩] [⟨0, 1, 2⟩, ⟨0, 1, 3⟩, ⟨-1, 0, 1⟩]
    (by simp [IsInt32])).1

/-! ## Lemmas on the checkerboard test -/

theorem objectPointGrid_patternSize_length : (objectPointGrid patternSize).length = 54 :=
  (grid_rows patternSize 6).1

/-- The guard of read_obj.cpp lets a pose attempt through only with 54
corners (for any list shorter than `2^31`). -/
theorem poseAttempt_read_obj_lengths (subPix : SubPixFn) (d : ChessboardOut)
    (call : SolvePnPCall) (hsize : d.corners.length < 2147483648)
    (h : poseAttempt_read_obj subPix d = some call) :
    d.corners.length = 54 ∧ call.imagePoints.length = 54 ∧ call.objectPoints.length = 54 := by
  unfold poseAttempt_read_obj at h
  split_ifs at h with hc
  obtain ⟨_, hlen⟩ := hc
  have hw : wrapInt32 (d.corners.length : Int) = (d.corners.length : Int) := by
    unfold wrapInt32
    omega
  rw [hw] at hlen
  have h54 : d.corners.length = 54 := by
    have : patternSize.area = 54 := by decide
    rw [this] at hlen
    exact_mod_cast hlen
  simp only [Option.some.injEq] at h
  subst h
  exact ⟨h54, by simp [h54], objectPointGrid_patternSize_length⟩

/-! ## Theorem on the checkerboard test -/

theorem detectBody_eq (best : ℚ × List (Int × Int)) (c : Contour) :
    detectBody best c = if Passes c ∧ best.1 < c.area then (c.area, c.approx) else best := by
  unfold detectBody Passes codeRatio
  by_cases h1 : c.approx.length = 4 ∧ c.convex = true
  · obtain ⟨ha, hb⟩ := h1
    by_cases h2 : c.area < 1000
    · have : ¬ (1000 ≤ c.area) := not_le.mpr h2
      simp [ha, hb, h2, this]
    · by_cases h3 : c.height = 0
      · simp [ha, hb, h2, h3]
      · by_cases h4 : |roundF64 ((if roundF64 (c.width / c.height) < 1
            then roundF64 (1 / roundF64 (c.width / c.height))
            else roundF64 (c.width / c.height)) - expectedRatio)| > 1 / 2
        · have h4' : ¬ (|roundF64 ((if roundF64 (c.width / c.height) < 1
              then roundF64 (1 / roundF64 (c.width / c.height))
              else roundF64 (c.width / c.height)) - expectedRatio)| ≤ 1 / 2) := not_le.mpr h4
          simp only [ha, hb, and_self, if_true, h2, if_false, h3, h4, h4', ne_eq,
            not_false_eq_true, and_false, false_and]
        · have h4' : |roundF64 ((if roundF64 (c.width / c.height) < 1
              then roundF64 (1 / roundF64 (c.width / c.height))
              else roundF64 (c.width / c.height)) - expectedRatio)| ≤ 1 / 2 := not_lt.mp h4
          have h2' : 1000 ≤ c.area := not_lt.mp h2
          simp only [ha, hb, and_self, if_true, h2, if_false, h3, h4, h4', h2', ne_eq,
            not_false_eq_true, true_and, gt_iff_lt]
  · have : ¬ (c.approx.length = 4 ∧ c.convex = true ∧ 1000 ≤ c.area ∧ c.height ≠ 0 ∧
        |roundF64 ((if roundF64 (c.width / c.height) < 1
          then roundF64 (1 / roundF64 (c.width / c.height))
          else roundF64 (c.width / c.height)) - expectedRatio)| ≤ 1 / 2) := by
      intro hc
      exact h1 ⟨hc.1, hc.2.1⟩
    simp only [h1, if_false, this, false_and]

theorem normRatio_nonpos (r : ℚ) (hr : r ≤ 0) : ¬ |normRatio r - 8 / 6| ≤ 1 / 2 := by
  unfold normRatio
  have h1 : r < 1 := by linarith
  rw [if_pos h1]
  have h2 : 1 / r ≤ 0 := by
    rw [one_div]
    exact inv_nonpos.mpr hr
  intro hc
  rw [abs_le] at hc
  linarith [hc.1]

theorem normRatio_inv (r : ℚ) (hr : 0 < r) : normRatio (1 / r) = normRatio r := by
  unfold normRatio
  rcases lt_trichotomy r 1 with h | h | h
  · have h1 : ¬ (1 / r < 1) := by
      rw [not_lt, le_div_iff₀ hr]
      linarith
    rw [if_neg h1, if_pos h]
  · subst h
    simp
  · have h1 : 1 / r < 1 := by
      rw [div_lt_iff₀ hr]
      linarith
    have h2 : ¬ (r < 1) := not_lt.mpr (le_of_lt h)
    rw [if_pos h1, if_neg h2, one_div_one_div]

theorem ratio_test_swap (w h : ℚ) :
    (h ≠ 0 ∧ |normRatio (w / h) - 8 / 6| ≤ 1 / 2) ↔
      (w ≠ 0 ∧ |normRatio (h / w) - 8 / 6| ≤ 1 / 2) := by
  by_cases hh : h = 0
  · subst hh
    constructor
    · rintro ⟨h1, _⟩; exact absurd rfl h1
    · rintro ⟨_, h2⟩
      rw [zero_div] at h2
      exact absurd h2 (normRatio_nonpos 0 (le_refl 0))
  · by_cases hw : w = 0
    · subst hw
      constructor
      · rintro ⟨_, h2⟩
        rw [zero_div] at h2
        exact absurd h2 (normRatio_nonpos 0 (le_refl 0))
      · rintro ⟨h1, _⟩; exact absurd rfl h1
    · have hinv : h / w = 1 / (w / h) := by
        field_simp
      rcases lt_or_gt_of_ne (div_ne_zero hw hh) with hneg | hpos
      · have hneg2 : h / w ≤ 0 := by
          rw [hinv, one_div]
          exact inv_nonpos.mpr (le_of_lt hneg)
        constructor
        · rintro ⟨_, h2⟩
          exact absurd h2 (normRatio_nonpos _ (le_of_lt hneg))
        · rintro ⟨_, h2⟩
          exact absurd h2 (normRatio_nonpos _ hneg2)
      · rw [hinv, normRatio_inv _ hpos]
        simp only [ne_eq, hh, not_false_eq_true, true_and, hw]

theorem survives_swap (c : Contour) :
    Survives c ↔ Survives { c with width := c.height, height := c.width } := by
  unfold Survives
  have := ratio_test_swap c.width c.height
  constructor
  · rintro ⟨a, b, d, e, f⟩
    exact ⟨a, b, d, (this.mp ⟨e, f⟩).1, (this.mp ⟨e, f⟩).2⟩
  · rintro ⟨a, b, d, e, f⟩
    exact ⟨a, b, d, (this.mpr ⟨e, f⟩).1, (this.mpr ⟨e, f⟩).2⟩

/-- The contour loop from any running best: either nothing beats it, or the
result is the first survivor of largest area among those that beat it. -/
theorem foldl_detectBody (cs : List Contour) (best : ℚ × List (Int × Int)) :
    (cs.foldl detectBody best = best ∧ ∀ c ∈ cs, Passes c → c.area ≤ best.1) ∨
    (∃ before c after, cs = before ++ c :: after ∧ Passes c ∧ best.1 < c.area ∧
      cs.foldl detectBody best = (c.area, c.approx) ∧
      (∀ d ∈ before, Passes d → d.area < c.area) ∧
      (∀ d ∈ after, Passes d → d.area ≤ c.area)) := by
  induction cs generalizing best with
  | nil => left; simp
  | cons a t ih =>
    rw [List.foldl_cons, detectBody_eq]
    by_cases ha : Passes a ∧ best.1 < a.area
    · rw [if_pos ha]
      rcases ih (a.area, a.approx) with ⟨hr, hall⟩ | ⟨before, c, after, hcs, hc, hlt, hr, hb, haf⟩
      · right
        exact ⟨[], a, t, rfl, ha.1, ha.2, hr, by simp, hall⟩
      · right
        refine ⟨a :: before, c, after, by rw [hcs]; rfl, hc, lt_trans ha.2 hlt, hr, ?_, haf⟩
        intro d hd hs
        rcases List.mem_cons.mp hd with rfl | hd
        · exact hlt
        · exact hb d hd hs
    · rw [if_neg ha]
      have hale : Passes a → a.area ≤ best.1 := fun hs => not_lt.mp (fun hlt => ha ⟨hs, hlt⟩)
      rcases ih best with ⟨hr, hall⟩ | ⟨before, c, after, hcs, hc, hlt, hr, hb, haf⟩
      · left
        refine ⟨hr, ?_⟩
        intro d hd hs
        rcases List.mem_cons.mp hd with rfl | hd
        · exact hale hs
        · exact hall d hd hs
      · right
        refine ⟨a :: before, c, after, by rw [hcs]; rfl, hc, hlt, hr, ?_, haf⟩
        intro d hd hs
        rcases List.mem_cons.mp hd with rfl | hd
        · exact lt_of_le_of_lt (hale hs) hlt
        · exact hb d hd hs

/-! ## Theorems on the candidate selection of `detectTarget` -/

/-- C16 (counterexample): the 60 by 110 candidate meets the test of the claim
(its ratio `110/60` is exactly 0.5 above `8/6`) and yet is rejected, while the
same candidate with width and height swapped is accepted: in `double` the
reciprocal of `60.0/110.0` exceeds `110.0/60.0` by one unit in the last
place. -/
theorem ratio_test_differs_on_swap :
    Survives portrait60x110 ∧
    detectTarget [portrait60x110] [] = (false, []) ∧
    detectTarget [landscape110x60] []
      = (true, [⟨0, 0⟩, ⟨0, 110⟩, ⟨60, 110⟩, ⟨60, 0⟩]) := by
  decide!

/-- C16 (amended): the contour loop takes a candidate into account exactly
when it has 4 vertices, is convex, has area at least 1000, non-zero height and
its ratio, computed in `double` as the rounded quotient `width/height` and
replaced by its rounded reciprocal when below 1, differs from the rounded
`8/6` by at most 0.5 after rounding; `detectTarget` fails exactly when no
candidate passes, and otherwise returns `orderPoints` of the corners of the
passing candidate of largest area, the first one among equal areas. -/
theorem detectTarget_selects_first_largest (contours : List Contour)
    (targetCorners : List Point2f) :
    (∀ best c, detectBody best c
      = if Passes c ∧ best.1 < c.area then (c.area, c.approx) else best) ∧
    ((detectTarget contours targetCorners).1 = false ↔ ∀ c ∈ contours, ¬ Passes c) ∧
    ((∃ c ∈ contours, Passes c) →
      ∃ before c after, contours = before ++ c :: after ∧ Passes c ∧
        (∀ d ∈ before, Passes d → d.area < c.area) ∧
        (∀ d ∈ after, Passes d → d.area ≤ c.area) ∧
        detectTarget contours targetCorners = (true, orderPoints (contourCorners c.approx))) := by
  have hpos : ∀ c : Contour, Passes c → ¬ c.area ≤ 0 := by
    intro c hc hle
    have := hc.2.2.1
    linarith
  refine ⟨detectBody_eq, ?_, ?_⟩
  · rcases foldl_detectBody contours (0, []) with
      ⟨hr, hall⟩ | ⟨before, c, after, hcs, hc, hlt, hr, hb, haf⟩
    · have hfail : (detectTarget contours targetCorners).1 = false := by
        simp [detectTarget, hr]
      simp only [hfail, true_iff]
      exact fun c hc hs => hpos c hs (hall c hc hs)
    · have hne : c.approx ≠ [] := by
        intro h0
        have := hc.1
        rw [h0] at this
        simp at this
      have hok : (detectTarget contours targetCorners).1 = true := by
        simp [detectTarget, hr, hc.1, hne]
      simp only [hok, Bool.true_eq_false, false_iff, not_forall, not_not]
      exact ⟨c, by rw [hcs]; simp, hc⟩
  · rintro ⟨c0, hc0, hs0⟩
    rcases foldl_detectBody contours (0, []) with
      ⟨hr, hall⟩ | ⟨before, c, after, hcs, hc, hlt, hr, hb, haf⟩
    · exact absurd (hall c0 hc0 hs0) (hpos c0 hs0)
    · have hne : c.approx ≠ [] := by
        intro h0
        have := hc.1
        rw [h0] at this
        simp at this
      refine ⟨before, c, after, hcs, hc, hb, haf, ?_⟩
      simp [detectTarget, hr, hc.1, hne]

/-- Witness of `detectTarget_selects_first_largest`: of two passing
rectangles of equal area the first one is returned. -/
theorem detectTarget_selects_first_largest_witness :
    Passes rectContour ∧
    ∃ before c after,
      [rectContour, { rectContour with approx := [(0, 0), (80, 0), (80, 60), (0, 60)] }]
        = before ++ c :: after ∧ Passes c ∧
      (∀ d ∈ before, Passes d → d.area < c.area) ∧
      (∀ d ∈ after, Passes d → d.area ≤ c.area) ∧
      detectTarget
        [rectContour, { rectContour with approx := [(0, 0), (80, 0), (80, 60), (0, 60)] }] []
        = (true, orderPoints (contourCorners c.approx)) :=
  have hs : Passes rectContour := by decide!
  ⟨hs, (detectTarget_selects_first_largest
    [rectContour, { rectContour with approx := [(0, 0), (80, 0), (80, 60), (0, 60)] }] []).2.2
    ⟨rectContour, by simp, hs⟩⟩

/-! ## Theorems on the output of `orderPoints` for rectangles -/

/-- C17 (counterexample): for the rectangle with `x` in `{0, 1}` and `y` in
`{2^24, 2^24 + 2}` the `float` sums of `(0, 2^24)` and `(1, 2^24)` are both
`2^24`.  With `(1, 2^24)` first in the input it is returned twice and
`(0, 2^24)` not at all; with `(0, 2^24)` first the result is another list. -/
theorem orderPoints_rect_not_permutation :
    orderPoints [⟨1, 16777216⟩, ⟨0, 16777216⟩, ⟨1, 16777218⟩, ⟨0, 16777218⟩]
      = [⟨1, 16777216⟩, ⟨0, 16777218⟩, ⟨1, 16777218⟩, ⟨1, 16777216⟩] ∧
    (orderPoints [⟨1, 16777216⟩, ⟨0, 16777216⟩, ⟨1, 16777218⟩, ⟨0, 16777218⟩]).count
      ⟨0, 16777216⟩ = 0 ∧
    (orderPoints [⟨1, 16777216⟩, ⟨0, 16777216⟩, ⟨1, 16777218⟩, ⟨0, 16777218⟩]).count
      ⟨1, 16777216⟩ = 2 ∧
    orderPoints [⟨0, 16777216⟩, ⟨1, 16777216⟩, ⟨1, 16777218⟩, ⟨0, 16777218⟩]
      = [⟨0, 16777216⟩, ⟨0, 16777218⟩, ⟨1, 16777218⟩, ⟨1, 16777216⟩] := by
  decide!

/-- C17 (amended): for an axis-aligned rectangle of positive width and height
whose four extremes stay strict under `float` rounding (`RectStrict`) and
whose sums and differences do not overflow, and for any ordering of its four
corners as input, the result of `orderPoints` is a permutation of the input in
which each corner occurs exactly once, and it is the same list for every
ordering. -/
theorem orderPoints_rect_permutation (x0 x1 y0 y1 : ℚ) (hx : x0 < x1) (hy : y0 < y1)
    (hs : RectStrict x0 x1 y0 y1)
    (hr : ∀ p ∈ [(⟨x0, y0⟩ : Point2f), ⟨x1, y0⟩, ⟨x1, y1⟩, ⟨x0, y1⟩], InFloatRange p)
    (pts pts2 : List Point2f)
    (h1 : pts.Perm [⟨x0, y0⟩, ⟨x1, y0⟩, ⟨x1, y1⟩, ⟨x0, y1⟩])
    (h2 : pts2.Perm [⟨x0, y0⟩, ⟨x1, y0⟩, ⟨x1, y1⟩, ⟨x0, y1⟩]) :
    (orderPoints pts).Perm pts ∧
    (∀ q ∈ [(⟨x0, y0⟩ : Point2f), ⟨x1, y0⟩, ⟨x1, y1⟩, ⟨x0, y1⟩], (orderPoints pts).count q = 1) ∧
    orderPoints pts2 = orderPoints pts := by
  have e1 := orderPoints_rect x0 x1 y0 y1 hs pts h1 (fun p hp => hr p (h1.mem_iff.mp hp))
  have e2 := orderPoints_rect x0 x1 y0 y1 hs pts2 h2 (fun p hp => hr p (h2.mem_iff.mp hp))
  have hxne : x0 ≠ x1 := ne_of_lt hx
  have hyne : y0 ≠ y1 := ne_of_lt hy
  have hperm : [(⟨x0, y0⟩ : Point2f), ⟨x0, y1⟩, ⟨x1, y1⟩, ⟨x1, y0⟩].Perm
      [⟨x0, y0⟩, ⟨x1, y0⟩, ⟨x1, y1⟩, ⟨x0, y1⟩] := by
    apply List.Perm.cons
    have s1 : [(⟨x0, y1⟩ : Point2f), ⟨x1, y1⟩, ⟨x1, y0⟩].Perm [⟨x1, y1⟩, ⟨x0, y1⟩, ⟨x1, y0⟩] :=
      List.Perm.swap _ _ _
    have s2 : [(⟨x1, y1⟩ : Point2f), ⟨x0, y1⟩, ⟨x1, y0⟩].Perm [⟨x1, y1⟩, ⟨x1, y0⟩, ⟨x0, y1⟩] :=
      List.Perm.cons _ (List.Perm.swap _ _ _)
    have s3 : [(⟨x1, y1⟩ : Point2f), ⟨x1, y0⟩, ⟨x0, y1⟩].Perm [⟨x1, y0⟩, ⟨x1, y1⟩, ⟨x0, y1⟩] :=
      List.Perm.swap _ _ _
    exact (s1.trans s2).trans s3
  refine ⟨?_, ?_, by rw [e1, e2]⟩
  · rw [e1]
    exact hperm.trans h1.symm
  · intro q hq
    rw [e1]
    simp only [List.mem_cons, List.mem_singleton, List.not_mem_nil, or_false] at hq
    rcases hq with rfl | rfl | rfl | rfl <;>
      simp [List.count_cons, hxne, hyne, hxne.symm, hyne.symm]

/-- Witness of `orderPoints_rect_permutation` on the square of scenario S2 in
two of its orderings. -/
theorem orderPoints_rect_permutation_witness :
    RectStrict 0 10 0 10 ∧
    (orderPoints [⟨10, 10⟩, ⟨0, 0⟩, ⟨10, 0⟩, ⟨0, 10⟩]).Perm
      [⟨10, 10⟩, ⟨0, 0⟩, ⟨10, 0⟩, ⟨0, 10⟩] ∧
    orderPoints [⟨0, 0⟩, ⟨10, 0⟩, ⟨10, 10⟩, ⟨0, 10⟩]
      = orderPoints [⟨10, 10⟩, ⟨0, 0⟩, ⟨10, 0⟩, ⟨0, 10⟩] :=
  have hp : [(⟨10, 10⟩ : Point2f), ⟨0, 0⟩, ⟨10, 0⟩, ⟨0, 10⟩].Perm
      [⟨0, 0⟩, ⟨10, 0⟩, ⟨10, 10⟩, ⟨0, 10⟩] :=
    (List.Perm.swap _ _ _).trans (List.Perm.cons _ ((List.Perm.swap _ _ _)))
  have hs : RectStrict 0 10 0 10 := by decide!
  have h := orderPoints_rect_permutation 0 10 0 10 (by norm_num) (by norm_num) hs
    (by decide!)
    [⟨10, 10⟩, ⟨0, 0⟩, ⟨10, 0⟩, ⟨0, 10⟩] [⟨0, 0⟩, ⟨10, 0⟩, ⟨10, 10⟩, ⟨0, 10⟩] hp (List.Perm.refl _)
  ⟨hs, h.1, h.2.2⟩

/-! ## Lemmas on the sample store of the calibration loop -/

theorem keyStep_save (fit : FitFn) (s : CalibState) (key : Char) (fileOpens : Bool)
    (hkey : key = 's' ∨ key = 'S') : keyStep fit s key fileOpens = keySave s := by
  unfold keyStep
  rw [if_pos hkey]

theorem keyStep_lists (fit : FitFn) (s : CalibState) (key : Char) (fileOpens : Bool) :
    ((keyStep fit s key fileOpens).1.corner_list = s.corner_list ∧
      (keyStep fit s key fileOpens).1.point_list = s.point_list ∧
      (keyStep fit s key fileOpens).1.image_list = s.image_list) ∨
    ((keyStep fit s key fileOpens).1.corner_list = s.corner_list ++ [s.lastValidCorners] ∧
      (keyStep fit s key fileOpens).1.point_list = s.point_list ++ [point_set] ∧
      (keyStep fit s key fileOpens).1.image_list = s.image_list ++ [s.lastValidImage]) := by
  unfold keyStep keySave keyCalibrate keyWrite
  split_ifs <;> simp

theorem storeInv_step (fit : FitFn) (s : CalibState) (obs : CalibObs) (h : StoreInv s) :
    StoreInv (calibStep fit s obs).1 := by
  obtain ⟨f1, f2, f3, _⟩ := updateLastValid_fields s obs
  obtain ⟨h1, h2, h3⟩ := h
  unfold StoreInv calibStep
  simp only
  rcases keyStep_lists fit (updateLastValid s obs) obs.key obs.fileOpens with
    ⟨a, b, c⟩ | ⟨a, b, c⟩
  · rw [a, b, c, f1, f2, f3]
    exact ⟨h1, h2, h3⟩
  · rw [a, b, c, f1, f2, f3]
    refine ⟨by simp [h1], by simp [h2], ?_⟩
    intro e he
    rcases List.mem_append.mp he with he | he
    · exact h3 e he
    · simp only [List.mem_singleton] at he
      rw [he]
      rfl

theorem storeInv_run (fit : FitFn) (obsList : List CalibObs) (s : CalibState)
    (h : StoreInv s) : StoreInv (calibRun fit s obsList).1 := by
  induction obsList generalizing s with
  | nil => exact h
  | cons obs rest ih =>
    unfold calibRun
    split_ifs
    · exact h
    · obtain ⟨f1, f2, f3, _⟩ := updateLastValid_fields s obs
      unfold StoreInv
      simp only [f1, f2, f3]
      exact h
    · exact ih _ (storeInv_step fit s obs h)

/-! ## Theorem on the sample store of the calibration loop -/

/-- C18: after any sequence of iterations from the initial state the lists
`corner_list`, `point_list` and `image_list` have the same length and every
entry of `point_list` is the 54-point grid of the pattern `(9, 6)`.  In any
state, an iteration with key `s` and no valid detection pending leaves the
three lists as they are, and one with a valid detection pending appends one
entry at the end of each list and keeps the earlier entries. -/
theorem calib_store_invariant (fit : FitFn) (obsList : List CalibObs) (s : CalibState)
    (obs : CalibObs) (hkey : obs.key = 's' ∨ obs.key = 'S') :
    ((calibRun fit calibInit obsList).1.corner_list.length
        = (calibRun fit calibInit obsList).1.point_list.length ∧
      (calibRun fit calibInit obsList).1.point_list.length
        = (calibRun fit calibInit obsList).1.image_list.length ∧
      ∀ e ∈ (calibRun fit calibInit obsList).1.point_list,
        e = objectPointGrid ⟨9, 6⟩ ∧ e.length = 54) ∧
    ((updateLastValid s obs).lastValidCorners = [] →
      (calibStep fit s obs).1.corner_list = s.corner_list ∧
      (calibStep fit s obs).1.point_list = s.point_list ∧
      (calibStep fit s obs).1.image_list = s.image_list) ∧
    ((updateLastValid s obs).lastValidCorners ≠ [] →
      (calibStep fit s obs).1.corner_list
        = s.corner_list ++ [(updateLastValid s obs).lastValidCorners] ∧
      (calibStep fit s obs).1.point_list = s.point_list ++ [objectPointGrid ⟨9, 6⟩] ∧
      (calibStep fit s obs).1.image_list
        = s.image_list ++ [(updateLastValid s obs).lastValidImage]) := by
  obtain ⟨f1, f2, f3, _⟩ := updateLastValid_fields s obs
  refine ⟨?_, ?_, ?_⟩
  · obtain ⟨h1, h2, h3⟩ := storeInv_run fit obsList calibInit
      ⟨rfl, rfl, by intro e he; simp [calibInit] at he⟩
    refine ⟨h1, h2, ?_⟩
    intro e he
    have := h3 e he
    exact ⟨this, by rw [this]; exact objectPointGrid_patternSize_length⟩
  · intro hnone
    simp only [calibStep, keyStep_save fit _ _ _ hkey, keySave, hnone, ne_eq, not_true_eq_false,
      if_false, f1, f2, f3, and_self]
  · intro hsome
    simp only [calibStep, keyStep_save fit _ _ _ hkey, keySave, hsome, ne_eq, not_false_eq_true,
      if_true, f1, f2, f3, true_and]
    exact ⟨rfl, trivial⟩

/-- Witness of `calib_store_invariant`: key `s` on a frame in which the
pattern is found stores one sample. -/
theorem calib_store_invariant_witness :
    (calibStep fitEcho calibInit (obsFound 's')).1.corner_list = [] ++ [[⟨2, 2⟩, ⟨4, 2⟩]] ∧
    (calibStep fitEcho calibInit (obsFound 's')).1.point_list = [] ++ [objectPointGrid ⟨9, 6⟩] ∧
    (calibStep fitEcho calibInit (obsFound 's')).1.image_list = [] ++ [blankFrame] :=
  have hl : (updateLastValid calibInit (obsFound 's')).lastValidCorners = [⟨2, 2⟩, ⟨4, 2⟩] := by
    decide!
  have h := (calib_store_invariant fitEcho [] calibInit (obsFound 's') (Or.inl rfl)).2.2
    (by rw [hl]; simp)
  ⟨by rw [← hl]; exact h.1, h.2.1, h.2.2⟩

end ARCalib
